import Mathlib

/-!
# Library management system: catalog, lending and the database file

A shallow embedding of `src/main.c` and the properties of its operations.

Conventions of the embedding.

* A C string (`char[51]`, `char*`) is the list of its characters before the
  terminating NUL.
* `int` values are integers; the one `int` computation that can leave the
  32-bit range on data the program can hold, `books[i].index - 1` in
  `deleteBook`, goes through `wrapInt`, and so does every conversion of a
  wider value to `int`.
* `time_t` values are integers. The program obtains dates from `time`, from
  `string_to_time` (years 2023 to 2037) and from `atoi`, all within the `int`
  range, and adds at most `60*60*24*7` to them, so no `time_t` computation
  leaves the 64-bit range.
* `books` is the memory reached through the pointer `struct book *books`, slot
  by slot; `numRows` is the value of `*numRows`. Slots at or after `numRows`
  hold whatever the memory holds there. The array that `main` passes has
  `maxRows` slots: `addBook` is the body of the function on the memory behind
  the pointer, `addBook_in` is the call on an array of given capacity, where a
  write outside the array is undefined, and the recorded accesses of
  `deleteBook` tell which slots that operation touches.
* `mktime` and `localtime` belong to the C library and depend on the time zone
  of the machine: the date functions take them as a parameter (`TimeZone`), and
  `utc` is the instance for a machine on UTC.
* What the operator types at a prompt is an argument of the operation (each
  read is preceded by `fflush(stdin)`, which drops earlier input). A prompt
  that loops until its answer is acceptable (`do ... while`) is represented by
  the accepted answer; a text prompt is represented by the characters typed
  before Enter, and the reading itself (`fgets`, then removal of the last
  character) is part of the operation.
* Undefined behaviour that a row of the database file can trigger (a null
  pointer passed to `atoi` or `strcpy`, a copy past a `char[51]` member) is an
  explicit outcome, `Outcome.undefined`.
-/

namespace Library

/-! ## Data model -/

/-- The record `struct book` (lines 35-44). -/
structure book where
  index : Int
  title : List Char
  author : List Char
  pub_year : Int
  date_added : Int
  date_out : Int
  date_due : Int
  name : List Char
deriving DecidableEq

/-- The array of records and the row count that every operation receives. -/
structure Catalog where
  books : Nat → book
  numRows : Nat

/-- Least value of a C `int`. -/
def INT_MIN : Int := -2147483648

/-- Greatest value of a C `int`. -/
def INT_MAX : Int := 2147483647

/-- Reduction of an integer to the 32-bit two's complement `int` range. -/
def wrapInt (x : Int) : Int := (x + 2147483648) % 4294967296 - 2147483648

/-- The assignment `books[i] = b`. -/
def setBook (books : Nat → book) (i : Nat) (b : book) : Nat → book :=
  fun j => if j = i then b else books j

/-- A catalog whose first slots hold the listed records and whose other slots
hold `rest`. -/
def Catalog.ofList (l : List book) (rest : book) : Catalog :=
  ⟨fun i => l.getD i rest, l.length⟩

/-! ## Console input -/

/-- The characters `fgets` stores when it may read at most `k` of them: it
stops after a line break, at the end of the input or after `k` characters. -/
def fgetsChars : Nat → List Char → List Char
  | 0, _ => []
  | _ + 1, [] => []
  | k + 1, c :: cs => if c = '\n' then [c] else c :: fgetsChars k cs

/-- A text field read from the console (lines 275-277, 283-285, 394-397,
407-410, 504-507): `fgets(buf, 51, stdin)` on the typed characters followed by
Enter, then `buf[strlen(buf) - 1] = 0`. -/
def readField (typed : List Char) : List Char :=
  (fgetsChars (51 - 1) (typed ++ ['\n'])).dropLast

/-! ## Catalog operations -/

/-- Body of the shifting loop of `deleteBook` (lines 347-348). -/
def deleteBook_shift (books : Nat → book) (i : Nat) : Nat → book :=
  let copied := setBook books i (books (i + 1))
  setBook copied i { copied i with index := wrapInt ((copied i).index - 1) }

/-- The loop `for (i = index_to_delete; i < *numRows; i++)` of `deleteBook`
(line 346); the first argument bounds the number of iterations. -/
def deleteBook_loop (numRows : Nat) : Nat → Nat → (Nat → book) → (Nat → book)
  | 0, _, books => books
  | fuel + 1, i, books =>
    if i < numRows then deleteBook_loop numRows fuel (i + 1) (deleteBook_shift books i)
    else books

/-- The operation `deleteBook` (lines 319-353): `index_to_delete` is the accepted
position (typed number minus one), `choice` the answer to the confirmation. -/
def deleteBook (s : Catalog) (index_to_delete : Nat) (choice : Char) : Catalog :=
  if choice = 'y' then
    ⟨deleteBook_loop s.numRows s.numRows index_to_delete s.books, s.numRows - 1⟩
  else s

/-- The body of `addBook` (lines 265-317) on the memory reached through the
pointer `books`: the typed title and author, the accepted publication year and
the current date. It writes slot `*numRows` without a capacity check; whether
that slot belongs to the array passed is the matter of `addBook_in`, which is
the call as `main` makes it. -/
def addBook (s : Catalog) (typedTitle typedAuthor : List Char) (new_pub_year : Int)
    (current_date : Int) : Catalog :=
  let new_index : Int := s.numRows
  let new_title := readField typedTitle
  let new_author := readField typedAuthor
  let new_date_added := wrapInt current_date
  let new_date_out : Int := 0
  let new_date_due : Int := 0
  let new_name := ['0']
  ⟨setBook s.books s.numRows
      { index := new_index, title := new_title, author := new_author,
        pub_year := new_pub_year, date_added := new_date_added,
        date_out := new_date_out, date_due := new_date_due, name := new_name },
    s.numRows + 1⟩

/-- One answer to the menu of `editBook` before `q`: a new title, a new author
or a new (accepted) publication year. -/
inductive EditChoice where
  | t (typed : List Char)
  | a (typed : List Char)
  | p (new_pub_year : Int)
deriving DecidableEq

/-- One round of the `switch` of `editBook` (lines 387-434). -/
def editBook_step (index_to_edit : Nat) (books : Nat → book) : EditChoice → (Nat → book)
  | .t typed => setBook books index_to_edit { books index_to_edit with title := readField typed }
  | .a typed => setBook books index_to_edit { books index_to_edit with author := readField typed }
  | .p y => setBook books index_to_edit { books index_to_edit with pub_year := y }

/-- The operation `editBook` (lines 355-437): the accepted position and the
answers given until `q`. -/
def editBook (s : Catalog) (index_to_edit : Nat) (choices : List EditChoice) : Catalog :=
  ⟨choices.foldl (editBook_step index_to_edit) s.books, s.numRows⟩

/-! ## Lending -/

/-- The operation `borrowBook` (lines 485-528): the accepted position, the typed
name and the current date; the result carries the message printed. -/
def borrowBook (s : Catalog) (index_to_borrow : Nat) (typedName : List Char)
    (current_date : Int) : Catalog × String :=
  if (s.books index_to_borrow).date_out = 0 then
    let name := readField typedName
    (⟨setBook s.books index_to_borrow
        { s.books index_to_borrow with
          name := name, date_out := current_date, date_due := current_date + 60 * 60 * 24 * 7 },
      s.numRows⟩, "Book successfully borrowed")
  else
    (s, "This book is already out")

/-- The operation `returnBook` (lines 530-558): the accepted position; the
result carries the message printed. -/
def returnBook (s : Catalog) (index_to_return : Nat) : Catalog × String :=
  if (s.books index_to_return).date_out ≠ 0 then
    (⟨setBook s.books index_to_return
        { s.books index_to_return with name := ['0'], date_out := 0, date_due := 0 },
      s.numRows⟩, "Book successfully returned")
  else
    (s, "This book is not currently out")

/-- One line of the overdue report (line 709): the printed number `i+1`, the
title, the borrower and the number of days overdue. -/
structure OverdueLine where
  number : Nat
  title : List Char
  name : List Char
  days : Int
deriving DecidableEq

/-- The loop of `checkBooks` (lines 707-711) from position `i` on; the first
argument bounds the number of iterations. -/
def checkBooks_loop (s : Catalog) (current_date : Int) : Nat → Nat → List OverdueLine
  | 0, _ => []
  | fuel + 1, i =>
    if i < s.numRows then
      (if (s.books i).date_due ≠ 0 ∧ (s.books i).date_due < current_date then
        [{ number := i + 1, title := (s.books i).title, name := (s.books i).name,
           days := Int.tdiv (current_date - (s.books i).date_due) (60 * 60 * 24) }]
      else []) ++ checkBooks_loop s current_date fuel (i + 1)
    else []

/-- The report printed by `checkBooks` (lines 702-722). -/
def checkBooks (s : Catalog) (current_date : Int) : List OverdueLine :=
  checkBooks_loop s current_date s.numRows 0

/-! ## Writing the database file -/

/-- The loops at lines 455-475: every `,` of a text becomes `.`. -/
def replaceCommas : List Char → List Char
  | [] => []
  | c :: cs => (if c = ',' then '.' else c) :: replaceCommas cs

/-- The conversion `%d` of `fprintf` applied to an `int`. -/
def fmtInt (v : Int) : List Char :=
  if v < 0 then '-' :: Nat.toDigits 10 v.natAbs else Nat.toDigits 10 v.toNat

/-- The record after the three replacement loops of `saveFile` (lines 455-475). -/
def saveFile_escape (b : book) : book :=
  { b with title := replaceCommas b.title, author := replaceCommas b.author,
           name := replaceCommas b.name }

/-- The row `fprintf` writes for a record (line 478); each `%d` prints its
argument as an `int`. -/
def rowText (b : book) : List Char :=
  fmtInt (wrapInt b.index) ++ ',' :: b.title ++ ',' :: b.author ++ ',' ::
    fmtInt (wrapInt b.pub_year) ++ ',' :: fmtInt (wrapInt b.date_added) ++ ',' ::
    fmtInt (wrapInt b.date_out) ++ ',' :: fmtInt (wrapInt b.date_due) ++ ',' ::
    b.name ++ ['\n']

/-- The loop of `saveFile` (lines 452-479) from position `i` on: the array after
the loop and the rows written, in order; the first argument bounds the number
of iterations. -/
def saveFile_loop (numRows : Nat) : Nat → Nat → (Nat → book) → (Nat → book) × List (List Char)
  | 0, _, books => (books, [])
  | fuel + 1, i, books =>
    if i < numRows then
      let books1 := setBook books i (saveFile_escape (books i))
      let r := saveFile_loop numRows fuel (i + 1) books1
      (r.1, rowText (books1 i) :: r.2)
    else (books, [])

/-- The column headings written first (line 449). -/
def headerRow : List Char :=
  "index,title,author,pub_year,date_added,date_out,date_due,name\n".toList

/-- The operation `saveFile` (lines 439-483): the catalog afterwards and the
text of the file written. -/
def saveFile (s : Catalog) : Catalog × List Char :=
  let r := saveFile_loop s.numRows s.numRows 0 s.books
  (⟨r.1, s.numRows⟩, headerRow ++ r.2.flatten)

/-! ## Reading the database file -/

/-- Why a run has no defined result. -/
inductive Fault where
  | nullPointer
  | overflow
deriving DecidableEq

/-- Result of a computation that either completes or has undefined behaviour. -/
inductive Outcome (α : Type) where
  | ok (a : α)
  | undefined (f : Fault)
deriving DecidableEq

/-- Sequencing of computations that may be undefined. -/
def Outcome.bind {α β : Type} (x : Outcome α) (f : α → Outcome β) : Outcome β :=
  match x with
  | .ok a => f a
  | .undefined e => .undefined e

/-- The C library predicate `isspace`. -/
def isspace (c : Char) : Bool :=
  c = ' ' || c = '\t' || c = '\n' || c = '\x0b' || c = '\x0c' || c = '\r'

/-- Value of a run of decimal digits, most significant first. -/
def digitsValue (s : List Char) : Nat :=
  s.foldl (fun acc c => acc * 10 + (c.toNat - '0'.toNat)) 0

/-- The C library function `atoi`: leading white space, an optional sign, then
the longest run of digits. For a value outside the `int` range the C standard
fixes no result; the nearest bound is returned here. -/
def atoi (s : List Char) : Int :=
  let clamp (v : Int) : Int := max INT_MIN (min INT_MAX v)
  match s.dropWhile isspace with
  | '-' :: r => clamp (-(digitsValue (r.takeWhile Char.isDigit) : Int))
  | '+' :: r => clamp (digitsValue (r.takeWhile Char.isDigit))
  | r => clamp (digitsValue (r.takeWhile Char.isDigit))

/-- The C library function `strtok` on the text that remains to be split: the
token returned (`none` for the null pointer) and the text left for the next
call. -/
def strtok (s : List Char) (delim : List Char) : Option (List Char) × List Char :=
  match s.dropWhile (fun c => decide (c ∈ delim)) with
  | [] => (none, [])
  | c :: cs =>
    (some ((c :: cs).takeWhile (fun x => !decide (x ∈ delim))),
      ((c :: cs).dropWhile (fun x => !decide (x ∈ delim))).tail)

/-- The call `atoi(currentValue)`: undefined on the null pointer. -/
def atoiArg (currentValue : Option (List Char)) : Outcome Int :=
  match currentValue with
  | none => .undefined .nullPointer
  | some v => .ok (atoi v)

/-- The call `strcpy(field, currentValue)` into a `char[51]` member: undefined on
the null pointer and on a text of more than 50 characters. -/
def strcpyArg (currentValue : Option (List Char)) : Outcome (List Char) :=
  match currentValue with
  | none => .undefined .nullPointer
  | some v => if v.length ≤ 50 then .ok v else .undefined .overflow

/-- The body of the reading loop of `csvToStructs` (lines 131-141) on the row
that `fgets` delivered. -/
def parseRow (row : List Char) : Outcome book :=
  let t0 := strtok row [',']
  (atoiArg t0.1).bind fun index =>
  let t1 := strtok t0.2 [',', '\n']
  (strcpyArg t1.1).bind fun title =>
  let t2 := strtok t1.2 [',', '\n']
  (strcpyArg t2.1).bind fun author =>
  let t3 := strtok t2.2 [',', '\n']
  (atoiArg t3.1).bind fun pub_year =>
  let t4 := strtok t3.2 [',', '\n']
  (atoiArg t4.1).bind fun date_added =>
  let t5 := strtok t4.2 [',', '\n']
  (atoiArg t5.1).bind fun date_out =>
  let t6 := strtok t5.2 [',', '\n']
  (atoiArg t6.1).bind fun date_due =>
  let t7 := strtok t6.2 [',', '\n']
  (strcpyArg t7.1).bind fun name =>
  .ok { index := index, title := title, author := author, pub_year := pub_year,
        date_added := date_added, date_out := date_out, date_due := date_due,
        name := name }

/-- The C library function `fgets(row, n, fin)` on the unread text of the file:
`none` (the null pointer) at the end of the file, otherwise the row stored and
the text left unread. -/
def fgets (n : Nat) (fin : List Char) : Option (List Char × List Char) :=
  match fin with
  | [] => none
  | _ :: _ =>
    let row := fgetsChars (n - 1) fin
    some (row, fin.drop row.length)

/-- The reading loop of `csvToStructs` (lines 130-144); the first argument bounds
the number of iterations. -/
def csvToStructs_loop (maxRowLength : Nat) :
    Nat → List Char → Nat → (Nat → book) → Outcome Catalog
  | 0, _, rowNum, books => .ok ⟨books, rowNum⟩
  | fuel + 1, fin, rowNum, books =>
    match fgets maxRowLength fin with
    | none => .ok ⟨books, rowNum⟩
    | some (row, rest) =>
      match parseRow row with
      | .undefined f => .undefined f
      | .ok b => csvToStructs_loop maxRowLength fuel rest (rowNum + 1) (setBook books rowNum b)

/-- The function `csvToStructs` (lines 117-152): `file` is the text of the
database file, `none` when it cannot be opened; `mem` is the array and row
count before the call. The result is the value returned with the array and row
count afterwards. (The parameter `maxRows` is not used by the source.) -/
def csvToStructs (file : Option (List Char)) (maxRowLength : Nat) (mem : Catalog) :
    Outcome (Int × Catalog) :=
  match file with
  | none => .ok (0, mem)
  | some text =>
    let fin := match fgets maxRowLength text with
      | none => []
      | some (_, rest) => rest
    match csvToStructs_loop maxRowLength fin.length fin 0 mem.books with
    | .undefined f => .undefined f
    | .ok cat => .ok (1, cat)

/-! ## Predicates and sample data used by the properties -/

/-- Index contiguity: the record at each position below `numRows` carries that
position as its `index`. -/
def Contiguous (s : Catalog) : Prop :=
  ∀ i, i < s.numRows → (s.books i).index = (i : Int)

instance (s : Catalog) : Decidable (Contiguous s) := by
  unfold Contiguous
  infer_instance

/-- Content of the memory slots after the sample catalogs. -/
def sampleRest : book := ⟨-7, "junk".toList, [], 0, 0, 0, 0, []⟩

/-- An available record with the given index and title. -/
def sampleBook (i : Int) (t : String) : book :=
  ⟨i, t.toList, "A".toList, 2000, 100, 0, 0, ['0']⟩

/-- A catalog of three available records. -/
def sampleCatalog : Catalog :=
  Catalog.ofList [sampleBook 0 "a", sampleBook 1 "b", sampleBook 2 "c"] sampleRest

/-- The loan test of the parse rule quoted by the specification: a record is on
loan unless `date_out` and `date_due` are both 0. -/
def onLoanByParseRule (b : book) : Bool :=
  !(b.date_out == 0 && b.date_due == 0)

/-- The loan test of `checkBooks` (line 708): the record has a due date. -/
def hasDueDate (b : book) : Bool :=
  b.date_due != 0

/-- The overdue report in the words of the specification, for a given loan
test: in catalog order, one line for each position whose record is on loan and
has `date_due < c`, with the floor of `(c - date_due) / 86400` as days overdue. -/
def overdueReport (onLoan : book → Bool) (s : Catalog) (c : Int) : List OverdueLine :=
  ((List.range s.numRows).filter
      fun i => onLoan (s.books i) && decide ((s.books i).date_due < c)).map
    fun i => { number := i + 1, title := (s.books i).title, name := (s.books i).name,
               days := Int.fdiv (c - (s.books i).date_due) 86400 }

/-- A catalog whose only record has a date out but no due date, as the row
`0,T,A,2000,100,1700000000,0,Bob` of a database file gives. -/
def sampleNoDueDate : Catalog :=
  Catalog.ofList [⟨0, "T".toList, "A".toList, 2000, 100, 1700000000, 0, "Bob".toList⟩] sampleRest

/-- A catalog whose only record has a borrower and a due date but no date out,
as the row `0,T,A,2000,100,0,1700000000,Bob` of a database file gives. -/
def sampleDueOnly : Catalog :=
  Catalog.ofList [⟨0, "T".toList, "A".toList, 2000, 100, 0, 1700000000, "Bob".toList⟩] sampleRest

/-- A catalog with one book due at 1700000000 and one due a day later. -/
def sampleLoans : Catalog :=
  Catalog.ofList
    [⟨0, "T".toList, "A".toList, 2000, 100, 1699395200, 1700000000, "Bob".toList⟩,
     ⟨1, "U".toList, "B".toList, 2001, 100, 1699481600, 1700086400, "Eve".toList⟩] sampleRest

/-- A row as `fgets` delivers it has its line break, if any, as last character. -/
def LineBreakLast (row : List Char) : Prop :=
  '\n' ∉ row.dropLast

instance (row : List Char) : Decidable (LineBreakLast row) := by
  unfold LineBreakLast
  infer_instance

/-- Number of comma-separated fields of a row. -/
def fieldCount (row : List Char) : Nat :=
  row.count ',' + 1

/-- The catalog with no record. -/
def emptyCatalog : Catalog := Catalog.ofList [] sampleRest

/-- A field of a row: a non-empty text without `,` and without line break. -/
def FieldText (f : List Char) : Prop :=
  f ≠ [] ∧ ',' ∉ f ∧ '\n' ∉ f

instance (f : List Char) : Decidable (FieldText f) := by
  unfold FieldText
  infer_instance

/-! ## The array of `main` and the slots an operation touches -/

/-- Number of slots of the array `books` that `main` declares (lines 66-67). -/
def maxRows : Nat := 100

/-- Size of the buffer `row` that `main` has `csvToStructs` read each line of
the database file into (line 65): `fgets(row, maxRowLength, fin)` stores at most
`maxRowLength - 1` characters of a line. -/
def maxRowLength : Nat := 500

/-- A row of 520 characters made of eight fields: its `date_added` field is the
number 100 written with 490 leading zeros. -/
def sampleLongRow : List Char :=
  "1,Title,Author,2000,".toList ++ List.replicate 490 '0' ++ "100,0,0,0\n".toList

/-- An access to a slot of the array `books`. -/
inductive Access where
  | read (slot : Nat)
  | write (slot : Nat)
deriving DecidableEq

/-- The slot that an access touches. -/
def Access.slot : Access → Nat
  | .read k => k
  | .write k => k

/-- The loop of `deleteBook` (lines 346-349) with the array accesses of every
round recorded in order: `books[i] = books[i + 1]` reads slot `i + 1` and writes
slot `i`, `books[i].index = books[i].index-1` reads and writes slot `i`. The
first argument bounds the number of iterations. -/
def deleteBook_trace (numRows : Nat) :
    Nat → Nat → (Nat → book) → (Nat → book) × List Access
  | 0, _, books => (books, [])
  | fuel + 1, i, books =>
    if i < numRows then
      let r := deleteBook_trace numRows fuel (i + 1) (deleteBook_shift books i)
      (r.1, [Access.read (i + 1), Access.write i, Access.read i, Access.write i] ++ r.2)
    else (books, [])

/-- The array accesses of a confirmed `deleteBook` at position `index_to_delete`. -/
def deleteBook_accesses (s : Catalog) (index_to_delete : Nat) : List Access :=
  (deleteBook_trace s.numRows s.numRows index_to_delete s.books).2

/-- A catalog that fills the array of `main`: 100 available records. -/
def fullCatalog : Catalog :=
  ⟨fun i => if i < 100 then ⟨i, "t".toList, "A".toList, 2000, 100, 0, 0, ['0']⟩ else sampleRest,
    100⟩

/-- The operation `addBook` on an array of `capacity` slots, as `main` calls it
with its array of `maxRows` slots (line 99): the assignments at lines 306-313
write slot `*numRows`, and outside the array their behaviour is undefined. -/
def addBook_in (capacity : Nat) (s : Catalog) (typedTitle typedAuthor : List Char)
    (new_pub_year : Int) (current_date : Int) : Outcome Catalog :=
  if s.numRows < capacity then .ok (addBook s typedTitle typedAuthor new_pub_year current_date)
  else .undefined .overflow

/-! ## Searching -/

/-- The C library function `toupper` in the C locale: the letters `a` to `z`
become `A` to `Z`, every other character is kept. -/
def toupper (c : Char) : Char :=
  if 'a' ≤ c ∧ c ≤ 'z' then Char.ofNat (c.toNat - 32) else c

/-- The C library function `strstr`: the text from the first occurrence of
`needle` in `haystack` on, `none` (the null pointer) when there is none. -/
def strstr : List Char → List Char → Option (List Char)
  | [], needle => if needle = [] then some [] else none
  | c :: cs, needle =>
    if needle.isPrefixOf (c :: cs) then some (c :: cs) else strstr cs needle

/-- The search term as `searchBooks` reads and normalises it (lines 574-588):
`fgets(term, 51, stdin)`, removal of the last character, then `toupper` on
every character. -/
def searchBooks_term (typed : List Char) : List Char :=
  (readField typed).map toupper

/-- The copy `temp` of a stored text after the loop
`for (i = 0; i < 50; i++) temp[i] = toupper(temp[i])` (lines 603-606, 629-632). -/
def searchBooks_upper (text : List Char) : List Char :=
  (text.take 50).map toupper ++ text.drop 50

/-- One line of the list of matching books (lines 610-619, 636-645, 655-664):
the printed number `index + 1`, title, author, publication year and whether the
book is out. -/
structure SearchLine where
  number : Int
  title : List Char
  author : List Char
  pub_year : Int
  out : Bool
deriving DecidableEq

/-- The line printed for a matching record. -/
def searchBooks_line (b : book) : SearchLine :=
  { number := wrapInt (b.index + 1), title := b.title, author := b.author,
    pub_year := b.pub_year, out := decide (b.date_out ≠ 0) }

/-- The test of the three search loops (lines 608, 634, 653) for the accepted
answer `choice` (`t`, `a` or `p`). -/
def searchBooks_match (choice : Char) (term : List Char) (b : book) : Bool :=
  if choice = 't' then (strstr (searchBooks_upper b.title) term).isSome
  else if choice = 'a' then (strstr (searchBooks_upper b.author) term).isSome
  else if choice = 'p' then b.pub_year == atoi term
  else false

/-- The search loop (lines 600-621, 626-647, 652-666) from position `i` on; the
first argument bounds the number of iterations. -/
def searchBooks_loop (s : Catalog) (choice : Char) (term : List Char) :
    Nat → Nat → List SearchLine
  | 0, _ => []
  | fuel + 1, i =>
    if i < s.numRows then
      (if searchBooks_match choice term (s.books i) then [searchBooks_line (s.books i)] else [])
        ++ searchBooks_loop s choice term fuel (i + 1)
    else []

/-- The listing of `searchBooks` (lines 560-669) for the accepted answer `choice`
and the typed search term: the catalog afterwards and the lines printed. (The
operation chosen from the menu that follows, lines 671-699, is one of
`borrowBook`, `returnBook`, `editBook`, `deleteBook` or a new search.) -/
def searchBooks (s : Catalog) (choice : Char) (typedTerm : List Char) :
    Catalog × List SearchLine :=
  (s, searchBooks_loop s choice (searchBooks_term typedTerm) s.numRows 0)

/-- The match of the specification: the term is a substring of the text when
both are compared after uppercasing every character. -/
def containsIgnoringCase (term text : List Char) : Prop :=
  term.map toupper <:+: text.map toupper

instance (term text : List Char) : Decidable (containsIgnoringCase term text) := by
  unfold containsIgnoringCase
  infer_instance

/-- A catalog whose only record has a title of 49 letters `a`. -/
def sampleLongTitle : Catalog :=
  Catalog.ofList [⟨0, List.replicate 49 'a', "A".toList, 2000, 100, 0, 0, ['0']⟩] sampleRest

/-- A catalog of three books by two authors. -/
def sampleShelf : Catalog :=
  Catalog.ofList
    [⟨0, "Dune".toList, "Frank Herbert".toList, 1965, 100, 0, 0, ['0']⟩,
     ⟨1, "Emma".toList, "Jane Austen".toList, 1815, 100, 5, 9, "Bob".toList⟩,
     ⟨2, "Dune Messiah".toList, "Frank Herbert".toList, 1969, 100, 0, 0, ['0']⟩] sampleRest

/-! ## Dates -/

/-- The fields of the C library's `struct tm` that take part in a conversion;
the initialiser `{0}` sets every field to 0. -/
structure tm where
  tm_sec : Int
  tm_min : Int
  tm_hour : Int
  tm_mday : Int
  tm_mon : Int
  tm_year : Int
  tm_isdst : Int
deriving DecidableEq

/-- The C library functions `mktime` and `localtime`. They are no part of the
repository and depend on the time zone of the machine, so the date functions
take them as a parameter. -/
structure TimeZone where
  mktime : tm → Int
  localtime : Int → tm

/-- The conversion `%d` of `sscanf`: leading white space, an optional sign, then
a non-empty run of digits; the value read (as `atoi` gives it) and the text left,
`none` when no digit is found. -/
def scanInt (s : List Char) : Option (Int × List Char) :=
  let clamp (v : Int) : Int := max INT_MIN (min INT_MAX v)
  match s.dropWhile isspace with
  | '-' :: r =>
    if r.takeWhile Char.isDigit = [] then none
    else some (clamp (-(digitsValue (r.takeWhile Char.isDigit) : Int)), r.dropWhile Char.isDigit)
  | '+' :: r =>
    if r.takeWhile Char.isDigit = [] then none
    else some (clamp (digitsValue (r.takeWhile Char.isDigit)), r.dropWhile Char.isDigit)
  | r =>
    if r.takeWhile Char.isDigit = [] then none
    else some (clamp (digitsValue (r.takeWhile Char.isDigit)), r.dropWhile Char.isDigit)

/-- The call `sscanf_s(stringFormatted, "%d/%d/%d", &dd, &mm, &yyyy)` (line 232):
the three values read, `none` when the text does not match to the end of the
format, in which case a variable is left without a value. -/
def sscanfDate (stringFormatted : List Char) : Option (Int × Int × Int) :=
  match scanInt stringFormatted with
  | some (dd, '/' :: r1) =>
    match scanInt r1 with
    | some (mm, '/' :: r2) =>
      match scanInt r2 with
      | some (yyyy, _) => some (dd, mm, yyyy)
      | none => none
    | _ => none
  | _ => none

/-- The function `string_to_time` (lines 229-245): the `int` returned, `none` when
`sscanf_s` leaves a variable without a value. -/
def string_to_time (tz : TimeZone) (stringFormatted : List Char) : Option Int :=
  match sscanfDate stringFormatted with
  | none => none
  | some (dd, mm, yyyy) =>
    let when : tm :=
      { tm_sec := 0, tm_min := 0, tm_hour := 0, tm_mday := dd, tm_mon := wrapInt (mm - 1),
        tm_year := wrapInt (yyyy - 1900), tm_isdst := 0 }
    let converted := tz.mktime when
    some (wrapInt converted)

/-- The conversion `%.2d` or `%.4d` of `snprintf`: the decimal digits of the
value, preceded by zeros up to `precision` digits, after a `-` for a negative
value. -/
def fmtPrec (precision : Nat) (v : Int) : List Char :=
  (if v < 0 then ['-'] else []) ++
    List.replicate (precision - (Nat.toDigits 10 v.natAbs).length) '0' ++
    Nat.toDigits 10 v.natAbs

/-- The text that `snprintf(buffer, 11, "%.2d/%.2d/%.4d", day, month, year)`
stores (lines 190 and 260): at most 10 characters. -/
def dateText (day month year : Int) : List Char :=
  (fmtPrec 2 day ++ '/' :: fmtPrec 2 month ++ '/' :: fmtPrec 4 year).take 10

/-- The function `time_to_string` (lines 247-263). -/
def time_to_string (tz : TimeZone) (timetFormatted : Int) : List Char :=
  let giverTime := tz.localtime timetFormatted
  let given : tm :=
    { tm_sec := 0, tm_min := 0, tm_hour := 0, tm_mday := giverTime.tm_mday,
      tm_mon := wrapInt (giverTime.tm_mon + 1), tm_year := wrapInt (giverTime.tm_year + 1900),
      tm_isdst := 0 }
  dateText given.tm_mday given.tm_mon given.tm_year

/-- Number of days from 1 January 1970 to a date of the Gregorian calendar
(`month` from 1 to 12). -/
def daysFromCivil (year month day : Int) : Int :=
  let y := if month ≤ 2 then year - 1 else year
  let era := y / 400
  let yoe := y - era * 400
  let doy := (153 * (if month > 2 then month - 3 else month + 9) + 2) / 5 + day - 1
  let doe := yoe * 365 + yoe / 4 - yoe / 100 + doy
  era * 146097 + doe - 719468

/-- The date of the Gregorian calendar (year, month, day) that lies a number of
days after 1 January 1970. -/
def civilFromDays (days : Int) : Int × Int × Int :=
  let z := days + 719468
  let era := z / 146097
  let doe := z - era * 146097
  let yoe := (doe - doe / 1460 + doe / 36524 - doe / 146096) / 365
  let doy := doe - (365 * yoe + yoe / 4 - yoe / 100)
  let mp := (5 * doy + 2) / 153
  let d := doy - (153 * mp + 2) / 5 + 1
  let m := if mp < 10 then mp + 3 else mp - 9
  (yoe + era * 400 + (if m ≤ 2 then 1 else 0), m, d)

/-- The functions `mktime` and `localtime` of a machine whose time zone is UTC,
without daylight saving time: `mktime` accepts fields outside their usual range
and counts them on, `localtime` gives the date and time of day of an instant. -/
def utc : TimeZone where
  mktime := fun t =>
    (daysFromCivil (1900 + t.tm_year + t.tm_mon / 12) (t.tm_mon % 12 + 1) 1 + (t.tm_mday - 1))
        * 86400 + t.tm_hour * 3600 + t.tm_min * 60 + t.tm_sec
  localtime := fun x =>
    let date := civilFromDays (x / 86400)
    { tm_sec := x % 86400 % 60, tm_min := x % 86400 / 60 % 60, tm_hour := x % 86400 / 3600,
      tm_mday := date.2.2, tm_mon := date.2.1 - 1, tm_year := date.1 - 1900, tm_isdst := 0 }

/-- The `struct tm` that `string_to_time` passes to `mktime` for a date
(lines 235-238). -/
def dateFields (day month year : Int) : tm :=
  { tm_sec := 0, tm_min := 0, tm_hour := 0, tm_mday := day, tm_mon := month - 1,
    tm_year := year - 1900, tm_isdst := 0 }

/-- Number of days of a month of the Gregorian calendar. -/
def daysInMonth (year month : Int) : Int :=
  if month = 2 then
    (if year % 4 = 0 ∧ (year % 100 ≠ 0 ∨ year % 400 = 0) then 29 else 28)
  else if month = 4 ∨ month = 6 ∨ month = 9 ∨ month = 11 then 30
  else 31

/-! ## Properties -/

/-! ### Deleting a book and the index invariant -/

theorem setBook_same (books : Nat → book) (i : Nat) (b : book) : setBook books i b i = b := by
  simp [setBook]

theorem setBook_other (books : Nat → book) (i j : Nat) (b : book) (h : j ≠ i) :
    setBook books i b j = books j := by
  simp [setBook, h]

theorem wrapInt_of_range (x : Int) (h1 : INT_MIN ≤ x) (h2 : x ≤ INT_MAX) : wrapInt x = x := by
  unfold INT_MIN at h1
  unfold INT_MAX at h2
  unfold wrapInt
  omega

theorem deleteBook_shift_apply (books : Nat → book) (i j : Nat) :
    deleteBook_shift books i j =
      if j = i then { books (i + 1) with index := wrapInt ((books (i + 1)).index - 1) }
      else books j := by
  unfold deleteBook_shift
  by_cases h : j = i
  · subst h; simp [setBook]
  · simp [setBook, h]

theorem deleteBook_loop_apply (numRows : Nat) :
    ∀ (fuel i : Nat) (books : Nat → book), numRows - i ≤ fuel → ∀ j,
      deleteBook_loop numRows fuel i books j =
        if i ≤ j ∧ j < numRows then
          { books (j + 1) with index := wrapInt ((books (j + 1)).index - 1) }
        else books j := by
  intro fuel
  induction fuel with
  | zero =>
    intro i books h j
    have : ¬ (i ≤ j ∧ j < numRows) := by omega
    simp [deleteBook_loop, this]
  | succ fuel ih =>
    intro i books h j
    unfold deleteBook_loop
    by_cases hi : i < numRows
    · rw [if_pos hi, ih (i + 1) _ (by omega) j]
      by_cases hj : i + 1 ≤ j ∧ j < numRows
      · have hj2 : i ≤ j ∧ j < numRows := by omega
        rw [if_pos hj, if_pos hj2, deleteBook_shift_apply, if_neg (by omega)]
      · rw [if_neg hj, deleteBook_shift_apply]
        by_cases hji : j = i
        · subst hji
          rw [if_pos rfl, if_pos ⟨le_refl _, hi⟩]
        · rw [if_neg hji, if_neg (by omega)]
    · rw [if_neg hi, if_neg (by omega)]

theorem deleteBook_numRows (s : Catalog) (p : Nat) :
    (deleteBook s p 'y').numRows = s.numRows - 1 := by
  simp [deleteBook]

theorem deleteBook_books_apply (s : Catalog) (p i : Nat) :
    (deleteBook s p 'y').books i =
      if p ≤ i ∧ i < s.numRows then
        { s.books (i + 1) with index := wrapInt ((s.books (i + 1)).index - 1) }
      else s.books i := by
  simp only [deleteBook, if_true]
  exact deleteBook_loop_apply s.numRows s.numRows p s.books (by omega) i

/-- C1: a confirmed `deleteBook` at a valid position `p` of a catalog of `N`
records leaves `numRows = N - 1`, leaves every record below `p` unchanged, and
makes the record at each position `i` with `p ≤ i < N - 1` the original record
at `i + 1` with its `index` decreased by one (C `int` subtraction, exact for
every `int` index above `INT_MIN`) and all its other fields unchanged. -/
theorem deleteBook_removes_and_shifts (s : Catalog) (p : Nat) (hp : p < s.numRows) :
    (deleteBook s p 'y').numRows = s.numRows - 1 ∧
    (∀ i, i < p → (deleteBook s p 'y').books i = s.books i) ∧
    (∀ i, p ≤ i → i < s.numRows - 1 →
      (deleteBook s p 'y').books i =
        { s.books (i + 1) with index := wrapInt ((s.books (i + 1)).index - 1) } ∧
      (INT_MIN < (s.books (i + 1)).index → (s.books (i + 1)).index ≤ INT_MAX →
        (deleteBook s p 'y').books i =
          { s.books (i + 1) with index := (s.books (i + 1)).index - 1 })) := by
  refine ⟨deleteBook_numRows s p, ?_, ?_⟩
  · intro i hi
    rw [deleteBook_books_apply, if_neg (by omega)]
  · intro i h1 h2
    have h3 : (deleteBook s p 'y').books i =
        { s.books (i + 1) with index := wrapInt ((s.books (i + 1)).index - 1) } := by
      rw [deleteBook_books_apply, if_pos ⟨h1, by omega⟩]
    refine ⟨h3, ?_⟩
    intro h4 h5
    rw [h3, wrapInt_of_range _ (by unfold INT_MIN at *; omega) (by omega)]

theorem deleteBook_removes_and_shifts_witness :
    1 < sampleCatalog.numRows ∧
    (deleteBook sampleCatalog 1 'y').numRows = 2 ∧
    (deleteBook sampleCatalog 1 'y').books 0 = sampleBook 0 "a" ∧
    (deleteBook sampleCatalog 1 'y').books 1 = sampleBook 1 "c" :=
  have h := deleteBook_removes_and_shifts sampleCatalog 1 (by decide)
  ⟨by decide, h.1, h.2.1 0 (by decide),
    ((h.2.2 1 (by decide) (by decide)).2 (by decide) (by decide)).trans (by decide)⟩

theorem editBook_index (p : Nat) (choices : List EditChoice) :
    ∀ (books : Nat → book) (j : Nat),
      (choices.foldl (editBook_step p) books j).index = (books j).index := by
  induction choices with
  | nil => intro books j; rfl
  | cons ch rest ih =>
    intro books j
    rw [List.foldl_cons, ih]
    cases ch <;> by_cases h : j = p <;> simp [editBook_step, setBook, h]

theorem fullCatalog_contiguous : Contiguous fullCatalog := by
  intro i hi
  have hi100 : i < 100 := hi
  simp [fullCatalog, hi100]

/-- C2, as stated, fails: the catalog of 100 records with `index = position`
fills the array of `main`, and `addBook` on it writes slot 100, outside that
array, so the call has no defined result and no catalog with contiguous indices
comes out of it. -/
theorem contiguity_counterexample :
    Contiguous fullCatalog ∧ fullCatalog.numRows = 100 ∧ maxRows = 100 ∧
    addBook_in maxRows fullCatalog "Dune".toList "Herbert".toList 1965 1700000000
      = .undefined .overflow :=
  ⟨fullCatalog_contiguous, by decide, by decide, rfl⟩

/-- C2 (amended): index contiguity is preserved by `addBook` on a catalog of
fewer than 100 records (the capacity of the array of `main`), where the call is
defined, by a confirmed `deleteBook` at a valid position, by `editBook`, by
`borrowBook` and by `returnBook`: if the record at each position `i < numRows`
has `index = i` before the operation, then the same holds afterwards with the
updated `numRows` (`numRows` being a C `int`, at most `INT_MAX`). -/
theorem contiguity_preserved (s : Catalog) (h : Contiguous s)
    (hN : (s.numRows : Int) ≤ INT_MAX) :
    (∀ typedTitle typedAuthor new_pub_year current_date, s.numRows < maxRows →
      addBook_in maxRows s typedTitle typedAuthor new_pub_year current_date
        = .ok (addBook s typedTitle typedAuthor new_pub_year current_date) ∧
      Contiguous (addBook s typedTitle typedAuthor new_pub_year current_date)) ∧
    (∀ p, p < s.numRows → Contiguous (deleteBook s p 'y')) ∧
    (∀ p choices, p < s.numRows → Contiguous (editBook s p choices)) ∧
    (∀ p typedName current_date, p < s.numRows →
      Contiguous (borrowBook s p typedName current_date).1) ∧
    (∀ p, p < s.numRows → Contiguous (returnBook s p).1) := by
  unfold Contiguous at h
  refine ⟨?_, ?_, ?_, ?_, ?_⟩
  · intro t a y c hcap
    refine ⟨by unfold addBook_in; rw [if_pos hcap], ?_⟩
    intro i hi
    simp only [addBook] at hi ⊢
    by_cases hin : i = s.numRows
    · subst hin; simp [setBook]
    · rw [setBook_other _ _ _ _ hin]
      exact h i (by omega)
  · intro p hp i hi
    rw [deleteBook_numRows] at hi
    rw [deleteBook_books_apply]
    by_cases hip : i < p
    · rw [if_neg (by omega)]; exact h i (by omega)
    · rw [if_pos (by omega)]
      have hidx := h (i + 1) (by omega)
      simp only [hidx]
      rw [wrapInt_of_range]
      · push_cast; ring
      · unfold INT_MIN; push_cast; omega
      · unfold INT_MAX at *; push_cast; omega
  · intro p choices _ i hi
    simp only [editBook] at hi ⊢
    rw [editBook_index]
    exact h i hi
  · intro p typed c _ i hi
    unfold borrowBook at hi ⊢
    by_cases hout : (s.books p).date_out = 0
    · simp only [if_pos hout] at hi ⊢
      by_cases hip : i = p
      · subst hip; simp only [setBook_same]; exact h i hi
      · rw [setBook_other _ _ _ _ hip]; exact h i hi
    · simp only [if_neg hout] at hi ⊢
      exact h i hi
  · intro p _ i hi
    unfold returnBook at hi ⊢
    by_cases hout : (s.books p).date_out ≠ 0
    · simp only [if_pos hout] at hi ⊢
      by_cases hip : i = p
      · subst hip; simp only [setBook_same]; exact h i hi
      · rw [setBook_other _ _ _ _ hip]; exact h i hi
    · simp only [if_neg hout] at hi ⊢
      exact h i hi

theorem sampleCatalog_contiguous : Contiguous sampleCatalog := by
  intro i hi
  have hi3 : i < 3 := hi
  interval_cases i <;> rfl

theorem contiguity_preserved_witness :
    Contiguous sampleCatalog ∧ (sampleCatalog.numRows : Int) ≤ INT_MAX ∧
    sampleCatalog.numRows < maxRows ∧
    addBook_in maxRows sampleCatalog "Dune".toList "Herbert".toList 1965 1700000000
      = .ok (addBook sampleCatalog "Dune".toList "Herbert".toList 1965 1700000000) ∧
    Contiguous (addBook sampleCatalog "Dune".toList "Herbert".toList 1965 1700000000) ∧
    Contiguous (deleteBook sampleCatalog 1 'y') ∧
    Contiguous (editBook sampleCatalog 1 [EditChoice.t "d".toList, EditChoice.p 1999]) ∧
    Contiguous (borrowBook sampleCatalog 1 "Alice".toList 1700000000).1 ∧
    Contiguous (returnBook sampleCatalog 1).1 :=
  have h := contiguity_preserved sampleCatalog sampleCatalog_contiguous (by decide)
  ⟨sampleCatalog_contiguous, by decide, by decide, (h.1 _ _ _ _ (by decide)).1,
    (h.1 _ _ _ _ (by decide)).2, h.2.1 1 (by decide),
    h.2.2.1 1 _ (by decide), h.2.2.2.1 1 _ _ (by decide), h.2.2.2.2 1 (by decide)⟩

/-! ### Borrowing and returning -/

theorem fgetsChars_line (typed : List Char) (hnl : '\n' ∉ typed) :
    ∀ k, typed.length < k → fgetsChars k (typed ++ ['\n']) = typed ++ ['\n'] := by
  induction typed with
  | nil =>
    intro k hk
    cases k with
    | zero => simp at hk
    | succ k => simp [fgetsChars]
  | cons c cs ih =>
    intro k hk
    cases k with
    | zero => simp at hk
    | succ k =>
      have hc : c ≠ '\n' := fun h => hnl (by simp [h])
      have hcs : '\n' ∉ cs := fun h => hnl (by simp [h])
      simp only [List.length_cons] at hk
      simp [fgetsChars, hc, ih hcs k (by omega)]

theorem fgetsChars_length_le : ∀ (k : Nat) (l : List Char), (fgetsChars k l).length ≤ k := by
  intro k
  induction k with
  | zero => intro l; simp [fgetsChars]
  | succ k ih =>
    intro l
    cases l with
    | nil => simp [fgetsChars]
    | cons c cs =>
      by_cases hc : c = '\n'
      · simp [fgetsChars, hc]
      · simp only [fgetsChars, if_neg hc, List.length_cons]
        have := ih cs
        omega

/-- A typed line of fewer than 50 characters is read back unchanged. -/
theorem readField_short (typed : List Char) (hnl : '\n' ∉ typed) (hlen : typed.length < 50) :
    readField typed = typed := by
  unfold readField
  rw [fgetsChars_line typed hnl _ (by omega)]
  simp

/-- A text read from the console fits the 51-byte buffers with room to spare. -/
theorem readField_length_le (typed : List Char) : (readField typed).length ≤ 49 := by
  unfold readField
  have := fgetsChars_length_le (51 - 1) (typed ++ ['\n'])
  simp only [List.length_dropLast]
  omega

/-- C3, as stated, fails: a borrower name of 51 characters (and one of 50) is
not what `borrowBook` stores; the record receives its first 49 characters. -/
theorem borrowBook_name_counterexample :
    (sampleCatalog.books 0).date_out = 0 ∧
    ((borrowBook sampleCatalog 0 (List.replicate 51 'a') 1700000000).1.books 0).name
      = List.replicate 49 'a' ∧
    ((borrowBook sampleCatalog 0 (List.replicate 51 'a') 1700000000).1.books 0).name
      ≠ List.replicate 51 'a' ∧
    ((borrowBook sampleCatalog 0 (List.replicate 50 'a') 1700000000).1.books 0).name
      ≠ List.replicate 50 'a' := by
  decide

/-- C3 (amended): for every current date `c`, every borrower name of fewer than
50 characters typed on one line, and every valid position whose record has
`date_out = 0`, `borrowBook` sets that record's `name` to the borrower name,
`date_out` to `c` and `date_due` to `c + 604800`, so that `date_due - date_out`
is exactly 7 days; no other field of the record, no other record and not
`numRows` changes. -/
theorem borrowBook_sets_loan (s : Catalog) (p : Nat) (typedName : List Char) (c : Int)
    (_hp : p < s.numRows) (havail : (s.books p).date_out = 0)
    (hline : '\n' ∉ typedName) (hlen : typedName.length < 50) :
    (borrowBook s p typedName c).1.books p =
      { s.books p with name := typedName, date_out := c, date_due := c + 604800 } ∧
    ((borrowBook s p typedName c).1.books p).date_due
      - ((borrowBook s p typedName c).1.books p).date_out = 7 * (24 * 60 * 60) ∧
    (∀ j, j ≠ p → (borrowBook s p typedName c).1.books j = s.books j) ∧
    (borrowBook s p typedName c).1.numRows = s.numRows ∧
    (borrowBook s p typedName c).2 = "Book successfully borrowed" := by
  have hb : borrowBook s p typedName c =
      (⟨setBook s.books p
          { s.books p with name := typedName, date_out := c, date_due := c + 604800 },
        s.numRows⟩, "Book successfully borrowed") := by
    unfold borrowBook
    rw [if_pos havail, readField_short typedName hline hlen]
    norm_num
  rw [hb]
  refine ⟨setBook_same _ _ _, ?_, fun j hj => setBook_other _ _ _ _ hj, rfl, rfl⟩
  simp only [setBook_same]
  norm_num

theorem borrowBook_sets_loan_witness :
    0 < sampleCatalog.numRows ∧ (sampleCatalog.books 0).date_out = 0 ∧
    (borrowBook sampleCatalog 0 "Alice".toList 1700000000).1.books 0 =
      { sampleBook 0 "a" with
        name := "Alice".toList, date_out := 1700000000, date_due := 1700604800 } :=
  ⟨by decide, by decide,
    (borrowBook_sets_loan sampleCatalog 0 "Alice".toList 1700000000
      (by decide) (by decide) (by decide) (by decide)).1⟩

/-- C4, as stated, fails at the current date 0: the first `borrowBook` leaves
`date_out = 0`, so a second one on the same position is accepted and replaces
the borrower. -/
theorem borrowBook_twice_counterexample :
    (sampleCatalog.books 0).date_out = 0 ∧
    (borrowBook (borrowBook sampleCatalog 0 "Alice".toList 0).1 0 "Bob".toList 0).2
      = "Book successfully borrowed" ∧
    ((borrowBook sampleCatalog 0 "Alice".toList 0).1.books 0).name = "Alice".toList ∧
    ((borrowBook (borrowBook sampleCatalog 0 "Alice".toList 0).1 0 "Bob".toList 0).1.books 0).name
      = "Bob".toList := by
  decide

/-- C4 (amended): for every catalog, every valid position holding an available
record (`date_out = 0`), every pair of borrower names and every current date
other than 0, a `borrowBook` on that position followed by a second `borrowBook`
on the same position (at any date) is rejected the second time with the
message that the book is already out, and the second call leaves the catalog
exactly as the first call left it. -/
theorem borrowBook_twice_rejected (s : Catalog) (p : Nat) (name1 name2 : List Char)
    (c c2 : Int) (_hp : p < s.numRows) (havail : (s.books p).date_out = 0) (hc : c ≠ 0) :
    borrowBook (borrowBook s p name1 c).1 p name2 c2 =
      ((borrowBook s p name1 c).1, "This book is already out") := by
  have hout : ((borrowBook s p name1 c).1.books p).date_out ≠ 0 := by
    unfold borrowBook
    simp only [if_pos havail, setBook_same]
    exact hc
  generalize (borrowBook s p name1 c).1 = s1 at hout ⊢
  unfold borrowBook
  rw [if_neg hout]

theorem borrowBook_twice_rejected_witness :
    0 < sampleCatalog.numRows ∧ (sampleCatalog.books 0).date_out = 0 ∧
    (1700000000 : Int) ≠ 0 ∧
    borrowBook (borrowBook sampleCatalog 0 "Alice".toList 1700000000).1 0 "Bob".toList 1700000000
      = ((borrowBook sampleCatalog 0 "Alice".toList 1700000000).1, "This book is already out") :=
  ⟨by decide, by decide, by decide,
    borrowBook_twice_rejected sampleCatalog 0 "Alice".toList "Bob".toList 1700000000 1700000000
      (by decide) (by decide) (by decide)⟩

/-- C5, as stated, fails: `returnBook` tests `date_out`, not the loan state. The
record of the row `0,T,A,2000,100,0,1700000000,Bob` has a borrower and a due
date, so it is on loan by the parse rule, yet `returnBook` reports that it is
not out and leaves borrower and due date in place; the same holds for the
record that a `borrowBook` at current date 0 leaves behind. -/
theorem returnBook_counterexample :
    parseRow "0,T,A,2000,100,0,1700000000,Bob\n".toList = .ok (sampleDueOnly.books 0) ∧
    onLoanByParseRule (sampleDueOnly.books 0) = true ∧
    returnBook sampleDueOnly 0 = (sampleDueOnly, "This book is not currently out") ∧
    ((returnBook sampleDueOnly 0).1.books 0).name = "Bob".toList ∧
    ((returnBook sampleDueOnly 0).1.books 0).date_due = 1700000000 ∧
    onLoanByParseRule ((borrowBook sampleCatalog 0 "Alice".toList 0).1.books 0) = true ∧
    returnBook (borrowBook sampleCatalog 0 "Alice".toList 0).1 0
      = ((borrowBook sampleCatalog 0 "Alice".toList 0).1, "This book is not currently out") ∧
    ((returnBook (borrowBook sampleCatalog 0 "Alice".toList 0).1 0).1.books 0).name
      = "Alice".toList ∧
    ((returnBook (borrowBook sampleCatalog 0 "Alice".toList 0).1 0).1.books 0).date_due
      = 604800 :=
  ⟨by decide, by decide, rfl, by decide, by decide, by decide, rfl, by decide, by decide⟩

/-- C5 (amended): for every catalog and valid position, if the record there has
`date_out ≠ 0`, `returnBook` sets its `name` to the text "0", its `date_out`
and `date_due` to 0, and leaves its other fields, every other record and
`numRows` unchanged; if the record has `date_out = 0`, as every available
record has, `returnBook` reports that the book is not out and leaves the whole
catalog unchanged. -/
theorem returnBook_resets_or_rejects (s : Catalog) (p : Nat) (_hp : p < s.numRows) :
    ((s.books p).date_out ≠ 0 →
      (returnBook s p).1.books p =
        { s.books p with name := ['0'], date_out := 0, date_due := 0 } ∧
      (∀ j, j ≠ p → (returnBook s p).1.books j = s.books j) ∧
      (returnBook s p).1.numRows = s.numRows ∧
      (returnBook s p).2 = "Book successfully returned") ∧
    ((s.books p).date_out = 0 →
      returnBook s p = (s, "This book is not currently out")) := by
  constructor
  · intro hout
    have hr : returnBook s p =
        (⟨setBook s.books p { s.books p with name := ['0'], date_out := 0, date_due := 0 },
          s.numRows⟩, "Book successfully returned") := by
      unfold returnBook
      rw [if_pos hout]
    rw [hr]
    exact ⟨setBook_same _ _ _, fun j hj => setBook_other _ _ _ _ hj, rfl, rfl⟩
  · intro havail
    unfold returnBook
    rw [if_neg (by simpa using havail)]

theorem returnBook_resets_or_rejects_witness :
    1 < sampleCatalog.numRows ∧
    returnBook sampleCatalog 1 = (sampleCatalog, "This book is not currently out") ∧
    (returnBook (borrowBook sampleCatalog 1 "Alice".toList 1700000000).1 1).1.books 1
      = sampleBook 1 "b" :=
  ⟨by decide,
    (returnBook_resets_or_rejects sampleCatalog 1 (by decide)).2 (by decide),
    ((returnBook_resets_or_rejects (borrowBook sampleCatalog 1 "Alice".toList 1700000000).1 1
      (by decide)).1 (by decide)).1.trans (by decide)⟩

/-! ### The overdue report -/

theorem checkBooks_loop_eq (s : Catalog) (c : Int) :
    ∀ (fuel i : Nat), s.numRows - i ≤ fuel →
      checkBooks_loop s c fuel i =
        ((List.range' i (s.numRows - i)).filter
            fun i => hasDueDate (s.books i) && decide ((s.books i).date_due < c)).map
          fun i => { number := i + 1, title := (s.books i).title, name := (s.books i).name,
                     days := Int.fdiv (c - (s.books i).date_due) 86400 } := by
  intro fuel
  induction fuel with
  | zero =>
    intro i h
    have h0 : s.numRows - i = 0 := by omega
    simp [checkBooks_loop, h0]
  | succ fuel ih =>
    intro i h
    unfold checkBooks_loop
    by_cases hi : i < s.numRows
    · have hk : s.numRows - i = (s.numRows - (i + 1)) + 1 := by omega
      rw [if_pos hi, ih (i + 1) (by omega), hk, List.range'_succ]
      by_cases hd : (s.books i).date_due ≠ 0 ∧ (s.books i).date_due < c
      · have hpos : 0 ≤ c - (s.books i).date_due := by omega
        have hdiv : Int.tdiv (c - (s.books i).date_due) (60 * 60 * 24)
            = Int.fdiv (c - (s.books i).date_due) 86400 := by
          rw [Int.fdiv_eq_tdiv hpos (by norm_num)]
          norm_num
        have hb : (hasDueDate (s.books i) && decide ((s.books i).date_due < c)) = true := by
          simp [hasDueDate, hd.1, hd.2]
        rw [if_pos hd, List.filter_cons, if_pos hb, List.map_cons, hdiv]
        rfl
      · have hb : ¬ ((hasDueDate (s.books i) && decide ((s.books i).date_due < c)) = true) := by
          simp only [hasDueDate, bne_iff_ne, Bool.and_eq_true, decide_eq_true_eq]
          exact hd
        rw [if_neg hd, List.filter_cons, if_neg hb]
        rfl
    · have h0 : s.numRows - i = 0 := by omega
      simp [hi, h0]

theorem checkBooks_eq_overdueReport (s : Catalog) (c : Int) :
    checkBooks s c = overdueReport hasDueDate s c := by
  unfold checkBooks overdueReport
  rw [checkBooks_loop_eq s c s.numRows 0 (by omega), List.range_eq_range']
  rfl

/-- C6, as stated, fails: a record with a date out and `date_due = 0` is on loan
by the parse rule and has `date_due < c`, so the claim lists it, and
`checkBooks` does not; at `c = 86400` the same record has
`date_due = c - 86400` and is not listed either. -/
theorem checkBooks_counterexample :
    checkBooks sampleNoDueDate 1700700000 = [] ∧
    overdueReport onLoanByParseRule sampleNoDueDate 1700700000
      = [⟨1, "T".toList, "Bob".toList, 19684⟩] ∧
    (sampleNoDueDate.books 0).date_due = 86400 - 86400 ∧
    checkBooks sampleNoDueDate 86400 = [] ∧
    overdueReport onLoanByParseRule sampleNoDueDate 86400
      = [⟨1, "T".toList, "Bob".toList, 1⟩] := by
  decide

/-- C6 (amended): for every catalog and current date `c`, the report of
`checkBooks` lists, in catalog order and once each, exactly the positions whose
record has `date_due ≠ 0` and `date_due < c`, each (numbered position + 1, with
title and borrower) with the floor of `(c - date_due) / 86400` as days overdue;
a record with `date_due = c` is not listed, and a record with
`date_due = c - 86400`, `date_due ≠ 0`, is listed with 1 day overdue. -/
theorem checkBooks_lists_overdue (s : Catalog) (c : Int) :
    checkBooks s c = overdueReport hasDueDate s c ∧
    ((checkBooks s c).map fun l => l.number).Pairwise (fun a b => a < b) ∧
    (∀ l, l ∈ checkBooks s c ↔
      ∃ i, i < s.numRows ∧ (s.books i).date_due ≠ 0 ∧ (s.books i).date_due < c ∧
        l = ⟨i + 1, (s.books i).title, (s.books i).name,
              Int.fdiv (c - (s.books i).date_due) 86400⟩) ∧
    (∀ i, i < s.numRows → (s.books i).date_due = c →
      ∀ l, l ∈ checkBooks s c → l.number ≠ i + 1) ∧
    (∀ i, i < s.numRows → (s.books i).date_due = c - 86400 → (s.books i).date_due ≠ 0 →
      (⟨i + 1, (s.books i).title, (s.books i).name, 1⟩ : OverdueLine) ∈ checkBooks s c) := by
  have hmem : ∀ l, l ∈ checkBooks s c ↔
      ∃ i, i < s.numRows ∧ (s.books i).date_due ≠ 0 ∧ (s.books i).date_due < c ∧
        l = ⟨i + 1, (s.books i).title, (s.books i).name,
              Int.fdiv (c - (s.books i).date_due) 86400⟩ := by
    intro l
    rw [checkBooks_eq_overdueReport]
    unfold overdueReport
    simp only [List.mem_map, List.mem_filter, List.mem_range, hasDueDate, bne_iff_ne,
      Bool.and_eq_true, decide_eq_true_eq]
    constructor
    · rintro ⟨i, ⟨hi, h1, h2⟩, rfl⟩
      exact ⟨i, hi, h1, h2, rfl⟩
    · rintro ⟨i, hi, h1, h2, rfl⟩
      exact ⟨i, ⟨hi, h1, h2⟩, rfl⟩
  refine ⟨checkBooks_eq_overdueReport s c, ?_, hmem, ?_, ?_⟩
  · rw [checkBooks_eq_overdueReport]
    unfold overdueReport
    rw [List.map_map]
    refine List.Pairwise.map _ ?_ (List.Pairwise.filter _ (List.pairwise_lt_range _))
    intro a b hab
    simp only [Function.comp]
    omega
  · intro i _ hdue l hl hnum
    obtain ⟨j, _, _, hlt, rfl⟩ := (hmem l).1 hl
    simp only at hnum
    have hji : j = i := by omega
    subst hji
    omega
  · intro i hi hdue hne
    refine (hmem _).2 ⟨i, hi, hne, by omega, ?_⟩
    have h1 : c - (s.books i).date_due = 86400 := by omega
    rw [h1]
    rfl

theorem checkBooks_lists_overdue_witness :
    checkBooks sampleLoans 1700086400 = [⟨1, "T".toList, "Bob".toList, 1⟩] ∧
    (⟨1, "T".toList, "Bob".toList, 1⟩ : OverdueLine) ∈ checkBooks sampleLoans 1700086400 ∧
    (∀ l, l ∈ checkBooks sampleLoans 1700086400 → l.number ≠ 1 + 1) :=
  have h := checkBooks_lists_overdue sampleLoans 1700086400
  ⟨h.1.trans (by decide), h.2.2.2.2 0 (by decide) (by decide) (by decide),
    h.2.2.2.1 1 (by decide) (by decide)⟩

/-! ### Saving: commas in the text fields -/

theorem replaceCommas_eq_map (t : List Char) :
    replaceCommas t = t.map fun c => if c = ',' then '.' else c := by
  induction t with
  | nil => rfl
  | cons c cs ih => simp [replaceCommas, ih]

theorem replaceCommas_no_comma (t : List Char) : ',' ∉ replaceCommas t := by
  rw [replaceCommas_eq_map]
  intro h
  obtain ⟨c, _, hc⟩ := List.mem_map.1 h
  by_cases hcc : c = ','
  · rw [if_pos hcc] at hc
    exact absurd hc (by decide)
  · rw [if_neg hcc] at hc
    exact hcc hc

theorem replaceCommas_of_no_comma (t : List Char) (h : ',' ∉ t) : replaceCommas t = t := by
  induction t with
  | nil => rfl
  | cons c cs ih =>
    have hc : c ≠ ',' := fun e => h (by simp [e])
    have hcs : ',' ∉ cs := fun e => h (by simp [e])
    simp [replaceCommas, hc, ih hcs]

theorem digitChar_ne_comma (n : Nat) : Nat.digitChar (n % 10) ≠ ',' := by
  have h : n % 10 < 10 := Nat.mod_lt n (by norm_num)
  generalize n % 10 = k at h
  interval_cases k <;> decide

theorem toDigitsCore_no_comma :
    ∀ (fuel n : Nat) (acc : List Char), ',' ∉ acc → ',' ∉ Nat.toDigitsCore 10 fuel n acc := by
  intro fuel
  induction fuel with
  | zero => intro n acc h; simpa [Nat.toDigitsCore] using h
  | succ fuel ih =>
    intro n acc h
    have hacc : ',' ∉ Nat.digitChar (n % 10) :: acc := by
      intro hm
      rcases List.mem_cons.1 hm with h1 | h1
      · exact digitChar_ne_comma _ h1.symm
      · exact h h1
    unfold Nat.toDigitsCore
    by_cases h0 : n / 10 = 0
    · simpa [h0] using hacc
    · simp only [h0, if_false]
      exact ih _ _ hacc

theorem fmtInt_no_comma (v : Int) : ',' ∉ fmtInt v := by
  unfold fmtInt Nat.toDigits
  by_cases hv : v < 0
  · rw [if_pos hv]
    intro hm
    rcases List.mem_cons.1 hm with h1 | h1
    · exact absurd h1 (by decide)
    · exact toDigitsCore_no_comma _ _ [] (by simp) h1
  · rw [if_neg hv]
    exact toDigitsCore_no_comma _ _ [] (by simp)

theorem rowText_count_comma (b : book) (ht : ',' ∉ b.title) (ha : ',' ∉ b.author)
    (hn : ',' ∉ b.name) : (rowText b).count ',' = 7 := by
  unfold rowText
  simp [List.count_append, List.count_cons, List.count_eq_zero_of_not_mem, ht, ha, hn,
    fmtInt_no_comma]

theorem saveFile_loop_books (numRows : Nat) :
    ∀ (fuel i : Nat) (books : Nat → book), numRows - i ≤ fuel → ∀ j,
      (saveFile_loop numRows fuel i books).1 j =
        if i ≤ j ∧ j < numRows then saveFile_escape (books j) else books j := by
  intro fuel
  induction fuel with
  | zero =>
    intro i books h j
    simp only [saveFile_loop]
    rw [if_neg (by omega)]
  | succ fuel ih =>
    intro i books h j
    unfold saveFile_loop
    by_cases hi : i < numRows
    · simp only [if_pos hi]
      rw [ih (i + 1) _ (by omega) j]
      by_cases hj : i + 1 ≤ j ∧ j < numRows
      · rw [if_pos hj, if_pos (by omega), setBook_other _ _ _ _ (by omega)]
      · rw [if_neg hj]
        by_cases hji : j = i
        · subst hji
          rw [setBook_same, if_pos (by omega)]
        · rw [setBook_other _ _ _ _ hji, if_neg (by omega)]
    · simp only [if_neg hi]
      rw [if_neg (by omega)]

theorem saveFile_loop_rows (numRows : Nat) :
    ∀ (fuel i : Nat) (books : Nat → book), numRows - i ≤ fuel →
      (saveFile_loop numRows fuel i books).2 =
        (List.range' i (numRows - i)).map fun j => rowText (saveFile_escape (books j)) := by
  intro fuel
  induction fuel with
  | zero =>
    intro i books h
    have h0 : numRows - i = 0 := by omega
    simp [saveFile_loop, h0]
  | succ fuel ih =>
    intro i books h
    unfold saveFile_loop
    by_cases hi : i < numRows
    · have hk : numRows - i = (numRows - (i + 1)) + 1 := by omega
      simp only [if_pos hi]
      rw [ih (i + 1) _ (by omega), hk, List.range'_succ, List.map_cons, setBook_same]
      congr 1
      apply List.map_congr_left
      intro j hj
      have hj1 : i + 1 ≤ j := (List.mem_range'_1.1 hj).1
      rw [setBook_other _ _ _ _ (by omega)]
    · have h0 : numRows - i = 0 := by omega
      simp [hi, h0]

theorem saveFile_books_apply (s : Catalog) (j : Nat) :
    (saveFile s).1.books j = if j < s.numRows then saveFile_escape (s.books j) else s.books j := by
  unfold saveFile
  simp only
  rw [saveFile_loop_books s.numRows s.numRows 0 s.books (by omega) j]
  simp

theorem saveFile_text (s : Catalog) :
    (saveFile s).2 =
      headerRow ++
        ((List.range s.numRows).map fun i => rowText (saveFile_escape (s.books i))).flatten := by
  unfold saveFile
  simp only
  rw [saveFile_loop_rows s.numRows s.numRows 0 s.books (by omega), List.range_eq_range']
  rfl

/-- C8: for every catalog, `saveFile` replaces, in the stored title, author and
name of each record, every `,` by `.` and changes no other character (same
length, every other character kept in place), so that afterwards no title,
author or name of the catalog contains `,`; nothing else in the array and not
`numRows` changes; the file is the header followed by one row per record, in
order, carrying the replaced texts, and each row contains exactly seven `,`. -/
theorem saveFile_replaces_commas (s : Catalog) :
    (∀ i, i < s.numRows →
      (saveFile s).1.books i =
        { s.books i with title := replaceCommas (s.books i).title,
                         author := replaceCommas (s.books i).author,
                         name := replaceCommas (s.books i).name }) ∧
    (∀ t : List Char, (replaceCommas t).length = t.length ∧
      (∀ (k : Nat) (c : Char), t[k]? = some c → (replaceCommas t)[k]? = some (if c = ',' then '.' else c)) ∧
      ',' ∉ replaceCommas t) ∧
    (∀ i, i < s.numRows →
      ',' ∉ ((saveFile s).1.books i).title ∧ ',' ∉ ((saveFile s).1.books i).author ∧
      ',' ∉ ((saveFile s).1.books i).name) ∧
    (∀ i, s.numRows ≤ i → (saveFile s).1.books i = s.books i) ∧
    (saveFile s).1.numRows = s.numRows ∧
    (saveFile s).2 =
      headerRow ++
        ((List.range s.numRows).map fun i => rowText ((saveFile s).1.books i)).flatten ∧
    (∀ i, i < s.numRows → (rowText ((saveFile s).1.books i)).count ',' = 7) := by
  have hb : ∀ i, i < s.numRows → (saveFile s).1.books i = saveFile_escape (s.books i) := by
    intro i hi
    rw [saveFile_books_apply, if_pos hi]
  refine ⟨fun i hi => hb i hi, ?_, ?_, ?_, rfl, ?_, ?_⟩
  · intro t
    refine ⟨by simp [replaceCommas_eq_map], ?_, replaceCommas_no_comma t⟩
    intro k c hk
    simp [replaceCommas_eq_map, hk]
  · intro i hi
    rw [hb i hi]
    exact ⟨replaceCommas_no_comma _, replaceCommas_no_comma _, replaceCommas_no_comma _⟩
  · intro i hi
    rw [saveFile_books_apply, if_neg (by omega)]
  · rw [saveFile_text]
    congr 2
    apply List.map_congr_left
    intro i hi
    rw [hb i (List.mem_range.1 hi)]
  · intro i hi
    rw [hb i hi]
    exact rowText_count_comma _ (replaceCommas_no_comma _) (replaceCommas_no_comma _)
      (replaceCommas_no_comma _)

theorem saveFile_replaces_commas_witness :
    (saveFile (Catalog.ofList [sampleBook 0 "a,b,c"] sampleRest)).1.books 0 = sampleBook 0 "a.b.c" ∧
    (rowText ((saveFile (Catalog.ofList [sampleBook 0 "a,b,c"] sampleRest)).1.books 0)).count ','
      = 7 ∧
    (saveFile (Catalog.ofList [sampleBook 0 "a,b,c"] sampleRest)).2
      = headerRow ++ "0,a.b.c,A,2000,100,0,0,0\n".toList :=
  have h := saveFile_replaces_commas (Catalog.ofList [sampleBook 0 "a,b,c"] sampleRest)
  ⟨(h.1 0 (by decide)).trans (by decide), h.2.2.2.2.2.2 0 (by decide),
    h.2.2.2.2.2.1.trans (by decide)⟩

/-! ### Reading a row of eight fields -/

theorem takeWhile_append_stop {p : Char → Bool} (f rest : List Char) (d : Char)
    (hf : ∀ c ∈ f, p c = true) (hd : p d = false) :
    (f ++ d :: rest).takeWhile p = f := by
  induction f with
  | nil => simp [List.takeWhile, hd]
  | cons c cs ih =>
    have hc : p c = true := hf c (by simp)
    simp only [List.cons_append, List.takeWhile_cons, hc, if_true]
    rw [ih (fun x hx => hf x (by simp [hx]))]

theorem dropWhile_append_stop {p : Char → Bool} (f rest : List Char) (d : Char)
    (hf : ∀ c ∈ f, p c = true) (hd : p d = false) :
    (f ++ d :: rest).dropWhile p = d :: rest := by
  induction f with
  | nil => simp [List.dropWhile, hd]
  | cons c cs ih =>
    have hc : p c = true := hf c (by simp)
    simp only [List.cons_append, List.dropWhile_cons, hc, if_true]
    rw [ih (fun x hx => hf x (by simp [hx]))]

/-- A non-empty field free of delimiters and followed by a delimiter is the
token `strtok` returns, and the text after that delimiter is left. -/
theorem strtok_field (f rest delim : List Char) (d : Char) (hne : f ≠ [])
    (hf : ∀ c ∈ f, c ∉ delim) (hd : d ∈ delim) :
    strtok (f ++ d :: rest) delim = (some f, rest) := by
  obtain ⟨c, cs, rfl⟩ := List.exists_cons_of_ne_nil hne
  have hc : c ∉ delim := hf c (by simp)
  have hp : ∀ x ∈ c :: cs, (fun x => !decide (x ∈ delim)) x = true := by
    intro x hx
    simp [hf x hx]
  have hpd : (fun x => !decide (x ∈ delim)) d = false := by simp [hd]
  have h1 : (c :: cs ++ d :: rest).dropWhile (fun x => decide (x ∈ delim))
      = c :: (cs ++ d :: rest) := by
    simp [List.dropWhile_cons, hc]
  have h2 : (c :: (cs ++ d :: rest)).takeWhile (fun x => !decide (x ∈ delim)) = c :: cs :=
    takeWhile_append_stop (c :: cs) rest d hp hpd
  have h3 : (c :: (cs ++ d :: rest)).dropWhile (fun x => !decide (x ∈ delim)) = d :: rest :=
    dropWhile_append_stop (c :: cs) rest d hp hpd
  unfold strtok
  rw [h1]
  simp only [h2, h3, List.tail_cons]

set_option maxRecDepth 100000 in
/-- The row `sampleLongRow`: its eight fields, its length, what the loop body
gives on the whole row, what `fgets` stores of it in a buffer of 500 bytes, and
what `csvToStructs` gives on the file made of the header and this row. -/
theorem sampleLongRow_read :
    sampleLongRow = [','].intercalate
        ["1".toList, "Title".toList, "Author".toList, "2000".toList,
          List.replicate 490 '0' ++ "100".toList, "0".toList, "0".toList, "0".toList] ++ ['\n'] ∧
    sampleLongRow.length = 520 ∧
    parseRow sampleLongRow
      = .ok ⟨1, "Title".toList, "Author".toList, 2000, 100, 0, 0, "0".toList⟩ ∧
    (fgets maxRowLength sampleLongRow).map Prod.fst
      = some ("1,Title,Author,2000,".toList ++ List.replicate 479 '0') ∧
    csvToStructs (some (headerRow ++ sampleLongRow)) maxRowLength emptyCatalog
      = .undefined .nullPointer :=
  ⟨by decide, by decide, by decide, by decide, rfl⟩

/-- C10, as stated, fails: in a row of 8 non-empty fields without `,` or line
break whose title has 51 characters, `strcpy` writes past the 51-byte `title`
member and no record is produced; likewise for an author or a name of 51
characters. And a row of 520 characters, whose eight fields are valid and whose
texts are short, is not read as one row: `fgets(row, 500, fin)` delivers its
first 499 characters, which hold five fields, so the loop body passes a null
pointer to `atoi` and `csvToStructs` produces no record, although the loop body
on the whole row would give the record claimed. -/
theorem parseRow_long_title_counterexample :
    parseRow ([','].intercalate
        ["1".toList, List.replicate 51 'a', "Author".toList, "2000".toList, "100".toList,
          "0".toList, "0".toList, "0".toList] ++ ['\n'])
      = .undefined .overflow ∧
    parseRow ([','].intercalate
        ["1".toList, "Title".toList, List.replicate 51 'a', "2000".toList, "100".toList,
          "0".toList, "0".toList, "0".toList] ++ ['\n'])
      = .undefined .overflow ∧
    parseRow ([','].intercalate
        ["1".toList, "Title".toList, "Author".toList, "2000".toList, "100".toList,
          "5".toList, "9".toList, List.replicate 51 'a'] ++ ['\n'])
      = .undefined .overflow ∧
    sampleLongRow = [','].intercalate
        ["1".toList, "Title".toList, "Author".toList, "2000".toList,
          List.replicate 490 '0' ++ "100".toList, "0".toList, "0".toList, "0".toList] ++ ['\n'] ∧
    sampleLongRow.length = 520 ∧
    parseRow sampleLongRow
      = .ok ⟨1, "Title".toList, "Author".toList, 2000, 100, 0, 0, "0".toList⟩ ∧
    (fgets maxRowLength sampleLongRow).map Prod.fst
      = some ("1,Title,Author,2000,".toList ++ List.replicate 479 '0') ∧
    csvToStructs (some (headerRow ++ sampleLongRow)) maxRowLength emptyCatalog
      = .undefined .nullPointer := by
  exact ⟨by decide, by decide, by decide, sampleLongRow_read⟩

/-- The loop body of `csvToStructs` on eight fields separated by `,` and ended
by a line break. -/
theorem parseRow_fields (f0 f1 f2 f3 f4 f5 f6 f7 : List Char)
    (hf : ∀ f ∈ [f0, f1, f2, f3, f4, f5, f6, f7], FieldText f)
    (h1 : f1.length ≤ 50) (h2 : f2.length ≤ 50) (h7 : f7.length ≤ 50) :
    parseRow (f0 ++ ',' :: (f1 ++ ',' :: (f2 ++ ',' :: (f3 ++ ',' :: (f4 ++ ',' ::
        (f5 ++ ',' :: (f6 ++ ',' :: (f7 ++ '\n' :: [])))))))) =
      .ok { index := atoi f0, title := f1, author := f2, pub_year := atoi f3,
            date_added := atoi f4, date_out := atoi f5, date_due := atoi f6,
            name := f7 } := by
  have hdel : ∀ f ∈ [f0, f1, f2, f3, f4, f5, f6, f7], ∀ c ∈ f, c ∉ [',', '\n'] := by
    intro f hfm c hc hcd
    obtain ⟨_, hcomma, hnl⟩ := hf f hfm
    rcases List.mem_cons.1 hcd with e | e
    · exact hcomma (e ▸ hc)
    · rw [List.mem_singleton] at e
      exact hnl (e ▸ hc)
  have hdel0 : ∀ c ∈ f0, c ∉ [','] := by
    intro c hc hcd
    rw [List.mem_singleton] at hcd
    exact (hf f0 (by simp)).2.1 (hcd ▸ hc)
  have e0 := strtok_field f0 (f1 ++ ',' :: (f2 ++ ',' :: (f3 ++ ',' :: (f4 ++ ',' ::
    (f5 ++ ',' :: (f6 ++ ',' :: (f7 ++ '\n' :: []))))))) [','] ','
    (hf f0 (by simp)).1 hdel0 (by simp)
  have e1 := strtok_field f1 (f2 ++ ',' :: (f3 ++ ',' :: (f4 ++ ',' ::
    (f5 ++ ',' :: (f6 ++ ',' :: (f7 ++ '\n' :: [])))))) [',', '\n'] ','
    (hf f1 (by simp)).1 (hdel f1 (by simp)) (by simp)
  have e2 := strtok_field f2 (f3 ++ ',' :: (f4 ++ ',' ::
    (f5 ++ ',' :: (f6 ++ ',' :: (f7 ++ '\n' :: []))))) [',', '\n'] ','
    (hf f2 (by simp)).1 (hdel f2 (by simp)) (by simp)
  have e3 := strtok_field f3 (f4 ++ ',' ::
    (f5 ++ ',' :: (f6 ++ ',' :: (f7 ++ '\n' :: [])))) [',', '\n'] ','
    (hf f3 (by simp)).1 (hdel f3 (by simp)) (by simp)
  have e4 := strtok_field f4 (f5 ++ ',' :: (f6 ++ ',' :: (f7 ++ '\n' :: []))) [',', '\n'] ','
    (hf f4 (by simp)).1 (hdel f4 (by simp)) (by simp)
  have e5 := strtok_field f5 (f6 ++ ',' :: (f7 ++ '\n' :: [])) [',', '\n'] ','
    (hf f5 (by simp)).1 (hdel f5 (by simp)) (by simp)
  have e6 := strtok_field f6 (f7 ++ '\n' :: []) [',', '\n'] ','
    (hf f6 (by simp)).1 (hdel f6 (by simp)) (by simp)
  have e7 := strtok_field f7 [] [',', '\n'] '\n'
    (hf f7 (by simp)).1 (hdel f7 (by simp)) (by simp)
  unfold parseRow
  simp only [e0, e1, e2, e3, e4, e5, e6, e7, atoiArg, strcpyArg, Outcome.bind, if_pos h1,
    if_pos h2, if_pos h7]

/-- A line followed by more text: `fgets` stores the line with its line break
when its buffer has room for it. -/
theorem fgetsChars_line_rest (line : List Char) (hnl : '\n' ∉ line) (rest : List Char) :
    ∀ k, line.length < k → fgetsChars k (line ++ '\n' :: rest) = line ++ ['\n'] := by
  induction line with
  | nil =>
    intro k hk
    cases k with
    | zero => simp at hk
    | succ k => simp [fgetsChars]
  | cons c cs ih =>
    intro k hk
    cases k with
    | zero => simp at hk
    | succ k =>
      have hc : c ≠ '\n' := fun h => hnl (by simp [h])
      have hcs : '\n' ∉ cs := fun h => hnl (by simp [h])
      simp only [List.length_cons] at hk
      simp [fgetsChars, hc, ih hcs k (by omega)]

theorem fgets_line (n : Nat) (line rest : List Char) (hnl : '\n' ∉ line)
    (hlen : line.length + 1 < n) :
    fgets n (line ++ '\n' :: rest) = some (line ++ ['\n'], rest) := by
  have hrow := fgetsChars_line_rest line hnl rest (n - 1) (by omega)
  have hne : ∃ c cs, line ++ '\n' :: rest = c :: cs := by
    cases line with
    | nil => exact ⟨_, _, rfl⟩
    | cons c cs => exact ⟨_, _, rfl⟩
  obtain ⟨c, cs, hcs⟩ := hne
  have hf : fgets n (c :: cs) =
      some (fgetsChars (n - 1) (c :: cs), (c :: cs).drop (fgetsChars (n - 1) (c :: cs)).length) :=
    rfl
  rw [hcs, hf, ← hcs, hrow]
  congr 2
  have : line ++ '\n' :: rest = (line ++ ['\n']) ++ rest := by simp
  rw [this, List.drop_left]

theorem csvToStructs_loop_nil (n : Nat) (rowNum : Nat) (books : Nat → book) :
    ∀ fuel, csvToStructs_loop n fuel [] rowNum books = .ok ⟨books, rowNum⟩ := by
  intro fuel
  cases fuel with
  | zero => rfl
  | succ fuel => rfl

/-- One round of the reading loop on a line that fits the buffer and parses. -/
theorem csvToStructs_loop_row (n : Nat) (line rest : List Char) (b : book)
    (hnl : '\n' ∉ line) (hlen : line.length + 1 < n)
    (hparse : parseRow (line ++ ['\n']) = .ok b)
    (fuel rowNum : Nat) (books : Nat → book) :
    csvToStructs_loop n (fuel + 1) (line ++ '\n' :: rest) rowNum books =
      csvToStructs_loop n fuel rest (rowNum + 1) (setBook books rowNum b) := by
  rw [csvToStructs_loop, fgets_line n line rest hnl hlen]
  simp only [hparse]

theorem headerRow_line :
    headerRow = "index,title,author,pub_year,date_added,date_out,date_due,name".toList ++ ['\n'] := by
  decide

/-- A database file of the header and one row that fits the buffer and parses. -/
theorem csvToStructs_one_row (line : List Char) (b : book)
    (hnl : '\n' ∉ line) (hlen : line.length + 1 < maxRowLength)
    (hparse : parseRow (line ++ ['\n']) = .ok b) (mem : Catalog) :
    csvToStructs (some (headerRow ++ (line ++ ['\n']))) maxRowLength mem =
      .ok (1, ⟨setBook mem.books 0 b, 1⟩) := by
  have hh : fgets maxRowLength (headerRow ++ (line ++ ['\n'])) =
      some (headerRow, line ++ ['\n']) := by
    rw [headerRow_line, List.append_assoc, List.singleton_append]
    exact fgets_line maxRowLength _ _ (by decide) (by decide)
  unfold csvToStructs
  simp only [hh]
  have hl : (line ++ ['\n']).length = line.length + 1 := by simp
  rw [hl]
  have := csvToStructs_loop_row maxRowLength line [] b hnl hlen hparse line.length 0 mem.books
  rw [this, csvToStructs_loop_nil]

theorem intercalate_eight (f0 f1 f2 f3 f4 f5 f6 f7 : List Char) :
    [','].intercalate [f0, f1, f2, f3, f4, f5, f6, f7] =
      f0 ++ ',' :: (f1 ++ ',' :: (f2 ++ ',' :: (f3 ++ ',' :: (f4 ++ ',' :: (f5 ++ ',' ::
        (f6 ++ ',' :: f7)))))) := by
  simp [List.intercalate, List.intersperse]

theorem intercalate_eight_no_line_break (f0 f1 f2 f3 f4 f5 f6 f7 : List Char)
    (hf : ∀ f ∈ [f0, f1, f2, f3, f4, f5, f6, f7], f ≠ [] ∧ ',' ∉ f ∧ '\n' ∉ f) :
    '\n' ∉ [','].intercalate [f0, f1, f2, f3, f4, f5, f6, f7] := by
  have h0 := (hf f0 (by simp)).2.2
  have h1 := (hf f1 (by simp)).2.2
  have h2 := (hf f2 (by simp)).2.2
  have h3 := (hf f3 (by simp)).2.2
  have h4 := (hf f4 (by simp)).2.2
  have h5 := (hf f5 (by simp)).2.2
  have h6 := (hf f6 (by simp)).2.2
  have h7 := (hf f7 (by simp)).2.2
  rw [intercalate_eight]
  simp [h0, h1, h2, h3, h4, h5, h6, h7]

/-- C10 (amended): for every row of at most 499 characters, line break
included (what `fgets(row, 500, fin)` stores as one row), made of 8 non-empty
fields `f0..f7` joined by `,` and ended by a line break, where no field
contains `,` or a line break and the text fields `f1`, `f2`, `f7` have at most
50 characters: `fgets` delivers the row whole, the row parsing of
`csvToStructs` yields the record with `index = atoi f0`, `title = f1`,
`author = f2`, `pub_year = atoi f3`, `date_added = atoi f4`,
`date_out = atoi f5`, `date_due = atoi f6`, `name = f7`, the reading loop
stores that record at the current row number (within the array of `main`) and
goes on with the rest of the file, and `csvToStructs` on the file made of the
header and this row returns 1 with that record as the only one; a `.` in a text
field is kept and does not split it: the row `2,Sci.Fi,Author,2000,100,0,0,0`
(with or without its line break) gives the title `Sci.Fi`, also when read from
a file. -/
theorem parseRow_eight_fields :
    (∀ f0 f1 f2 f3 f4 f5 f6 f7 : List Char,
      (∀ f ∈ [f0, f1, f2, f3, f4, f5, f6, f7], f ≠ [] ∧ ',' ∉ f ∧ '\n' ∉ f) →
      f1.length ≤ 50 → f2.length ≤ 50 → f7.length ≤ 50 →
      ([','].intercalate [f0, f1, f2, f3, f4, f5, f6, f7] ++ ['\n']).length < maxRowLength →
      (∀ rest, fgets maxRowLength ([','].intercalate [f0, f1, f2, f3, f4, f5, f6, f7] ++ ['\n'] ++ rest)
        = some ([','].intercalate [f0, f1, f2, f3, f4, f5, f6, f7] ++ ['\n'], rest)) ∧
      parseRow ([','].intercalate [f0, f1, f2, f3, f4, f5, f6, f7] ++ ['\n']) =
        .ok { index := atoi f0, title := f1, author := f2, pub_year := atoi f3,
              date_added := atoi f4, date_out := atoi f5, date_due := atoi f6,
              name := f7 } ∧
      (∀ fuel rest rowNum books, rowNum < maxRows →
        csvToStructs_loop maxRowLength (fuel + 1)
            ([','].intercalate [f0, f1, f2, f3, f4, f5, f6, f7] ++ ['\n'] ++ rest) rowNum books =
          csvToStructs_loop maxRowLength fuel rest (rowNum + 1)
            (setBook books rowNum
              { index := atoi f0, title := f1, author := f2, pub_year := atoi f3,
                date_added := atoi f4, date_out := atoi f5, date_due := atoi f6,
                name := f7 })) ∧
      (∀ mem, csvToStructs
          (some (headerRow ++ ([','].intercalate [f0, f1, f2, f3, f4, f5, f6, f7] ++ ['\n'])))
          maxRowLength mem =
        .ok (1, ⟨setBook mem.books 0
              { index := atoi f0, title := f1, author := f2, pub_year := atoi f3,
                date_added := atoi f4, date_out := atoi f5, date_due := atoi f6,
                name := f7 }, 1⟩))) ∧
    parseRow "2,Sci.Fi,Author,2000,100,0,0,0\n".toList =
      .ok ⟨2, "Sci.Fi".toList, "Author".toList, 2000, 100, 0, 0, "0".toList⟩ ∧
    parseRow "2,Sci.Fi,Author,2000,100,0,0,0".toList =
      .ok ⟨2, "Sci.Fi".toList, "Author".toList, 2000, 100, 0, 0, "0".toList⟩ ∧
    csvToStructs (some (headerRow ++ "2,Sci.Fi,Author,2000,100,0,0,0\n".toList)) maxRowLength
        emptyCatalog =
      .ok (1, ⟨setBook emptyCatalog.books 0
            ⟨2, "Sci.Fi".toList, "Author".toList, 2000, 100, 0, 0, "0".toList⟩, 1⟩) := by
  refine ⟨?_, by decide, by decide, rfl⟩
  intro f0 f1 f2 f3 f4 f5 f6 f7 hf h1 h2 h7 hlen
  have hnl := intercalate_eight_no_line_break f0 f1 f2 f3 f4 f5 f6 f7 hf
  have hrow : [','].intercalate [f0, f1, f2, f3, f4, f5, f6, f7] ++ ['\n'] =
      f0 ++ ',' :: (f1 ++ ',' :: (f2 ++ ',' :: (f3 ++ ',' :: (f4 ++ ',' :: (f5 ++ ',' ::
        (f6 ++ ',' :: (f7 ++ '\n' :: []))))))) := by
    simp [List.intercalate, List.intersperse]
  have hparse := parseRow_fields f0 f1 f2 f3 f4 f5 f6 f7 hf h1 h2 h7
  rw [← hrow] at hparse
  have hlen2 : ([','].intercalate [f0, f1, f2, f3, f4, f5, f6, f7]).length + 1 < maxRowLength := by
    simpa using hlen
  refine ⟨?_, hparse, ?_, ?_⟩
  · intro rest
    rw [List.append_assoc, List.singleton_append]
    exact fgets_line maxRowLength _ rest hnl hlen2
  · intro fuel rest rowNum books _
    rw [List.append_assoc, List.singleton_append]
    exact csvToStructs_loop_row maxRowLength _ rest _ hnl hlen2 hparse fuel rowNum books
  · intro mem
    exact csvToStructs_one_row _ _ hnl hlen2 hparse mem

theorem parseRow_eight_fields_witness :
    ([','].intercalate
        ["7".toList, "Dune".toList, "Frank Herbert".toList, "1965".toList, "1700000000".toList,
          "0".toList, "0".toList, "0".toList] ++ ['\n']).length < maxRowLength ∧
    parseRow ([','].intercalate
        ["7".toList, "Dune".toList, "Frank Herbert".toList, "1965".toList, "1700000000".toList,
          "0".toList, "0".toList, "0".toList] ++ ['\n'])
      = .ok ⟨7, "Dune".toList, "Frank Herbert".toList, 1965, 1700000000, 0, 0, "0".toList⟩ ∧
    csvToStructs (some (headerRow ++ "7,Dune,Frank Herbert,1965,1700000000,0,0,0\n".toList))
        maxRowLength emptyCatalog
      = .ok (1, ⟨setBook emptyCatalog.books 0
            ⟨7, "Dune".toList, "Frank Herbert".toList, 1965, 1700000000, 0, 0, "0".toList⟩, 1⟩) :=
  have h := parseRow_eight_fields.1 "7".toList "Dune".toList "Frank Herbert".toList "1965".toList
    "1700000000".toList "0".toList "0".toList "0".toList (by decide) (by decide) (by decide)
    (by decide) (by decide)
  ⟨by decide, h.2.1.trans (by decide), (h.2.2.2 emptyCatalog).trans rfl⟩

/-! ### Rows with fewer than eight fields -/

theorem lineBreakLast_iff (row : List Char) :
    LineBreakLast row ↔ ∀ pre post : List Char, row = pre ++ '\n' :: post → post = [] := by
  unfold LineBreakLast
  constructor
  · intro h pre post hrow
    cases post with
    | nil => rfl
    | cons a as =>
      exfalso
      apply h
      rw [hrow, List.dropLast_append_cons, List.dropLast_cons₂]
      simp
  · intro h hmem
    obtain ⟨a, b, hab⟩ := List.append_of_mem hmem
    have hne : row ≠ [] := by
      intro e
      rw [e] at hab
      simp at hab
    have hrow := (List.dropLast_append_getLast hne).symm
    rw [hab] at hrow
    have := h a (b ++ [row.getLast hne]) (hrow.trans (by simp))
    simp at this

theorem fgetsChars_split : ∀ (k : Nat) (l pre post : List Char),
    fgetsChars k l = pre ++ '\n' :: post → post = [] := by
  intro k
  induction k with
  | zero =>
    intro l pre post h
    simp [fgetsChars] at h
  | succ k ih =>
    intro l pre post h
    cases l with
    | nil => simp [fgetsChars] at h
    | cons c cs =>
      by_cases hc : c = '\n'
      · simp only [fgetsChars, if_pos hc] at h
        have hlen := congrArg List.length h
        simp only [List.length_append, List.length_cons, List.length_nil] at hlen
        exact List.eq_nil_of_length_eq_zero (by omega)
      · simp only [fgetsChars, if_neg hc] at h
        cases pre with
        | nil =>
          simp only [List.nil_append, List.cons.injEq] at h
          exact absurd h.1 hc
        | cons a pre1 =>
          simp only [List.cons_append, List.cons.injEq] at h
          exact ih cs pre1 post h.2

theorem fgetsChars_lineBreakLast (k : Nat) (l : List Char) : LineBreakLast (fgetsChars k l) :=
  (lineBreakLast_iff _).2 (fgetsChars_split k l)

theorem fgets_lineBreakLast (n : Nat) (fin row rest : List Char)
    (h : fgets n fin = some (row, rest)) : LineBreakLast row := by
  unfold fgets at h
  cases fin with
  | nil => simp at h
  | cons c cs =>
    simp only [Option.some.injEq, Prod.mk.injEq] at h
    rw [← h.1]
    exact fgetsChars_lineBreakLast _ _

theorem strtok_nil (delim : List Char) : strtok [] delim = (none, []) := rfl

/-- When `strtok` leaves text for the next call, that text follows a delimiter of
the text it was given. -/
theorem strtok_rest (s delim : List Char) (h : (strtok s delim).2 ≠ []) :
    ∃ pre d, d ∈ delim ∧ s = pre ++ d :: (strtok s delim).2 := by
  unfold strtok at h ⊢
  cases hs : s.dropWhile (fun c => decide (c ∈ delim)) with
  | nil => simp [hs] at h
  | cons c cs =>
    simp only [hs] at h ⊢
    cases hq : (c :: cs).dropWhile (fun x => !decide (x ∈ delim)) with
    | nil => simp [hq] at h
    | cons d r =>
      simp only [List.tail_cons]
      have hne : (c :: cs).dropWhile (fun x => !decide (x ∈ delim)) ≠ [] := by simp [hq]
      have hd := List.head_dropWhile_not (fun x => !decide (x ∈ delim)) (c :: cs) hne
      simp only [hq, List.head_cons, Bool.not_eq_false', decide_eq_true_eq] at hd
      have h1 : d :: r <:+ c :: cs := hq ▸ List.dropWhile_suffix _
      have h2 : c :: cs <:+ s := hs ▸ List.dropWhile_suffix _
      obtain ⟨pre, hpre⟩ := h1.trans h2
      exact ⟨pre, d, hd, hpre.symm⟩

theorem strtok_step (s delim : List Char) (hdelim : ∀ d ∈ delim, d = ',' ∨ d = '\n')
    (hs : LineBreakLast s) (h : (strtok s delim).2 ≠ []) :
    (strtok s delim).2.count ',' + 1 ≤ s.count ',' ∧ LineBreakLast (strtok s delim).2 := by
  obtain ⟨pre, d, hd, hsplit⟩ := strtok_rest s delim h
  generalize (strtok s delim).2 = rest at h hsplit ⊢
  have hcomma : d = ',' := by
    rcases hdelim d hd with e | e
    · exact e
    · exact absurd ((lineBreakLast_iff s).1 hs pre rest (e ▸ hsplit)) h
  subst hcomma
  constructor
  · rw [hsplit]
    simp [List.count_append, List.count_cons]
  · refine (lineBreakLast_iff rest).2 ?_
    intro pre1 post1 h1
    apply (lineBreakLast_iff s).1 hs (pre ++ ',' :: pre1) post1
    rw [hsplit, h1]
    simp

theorem Outcome.bind_ok {α β : Type} (x : Outcome α) (f : α → Outcome β) (b : β)
    (h : x.bind f = .ok b) : ∃ a, x = .ok a ∧ f a = .ok b := by
  cases x with
  | ok a => exact ⟨a, rfl, h⟩
  | undefined e => simp [Outcome.bind] at h

theorem atoiArg_ok (t : Option (List Char) × List Char) (a : Int)
    (h : atoiArg t.1 = .ok a) : t.1 ≠ none := by
  intro hn
  rw [hn] at h
  simp [atoiArg] at h

theorem strcpyArg_ok (t : Option (List Char) × List Char) (a : List Char)
    (h : strcpyArg t.1 = .ok a) : t.1 ≠ none := by
  intro hn
  rw [hn] at h
  simp [strcpyArg] at h

theorem strtok_some_ne_nil (s delim : List Char) (h : (strtok s delim).1 ≠ none) : s ≠ [] := by
  intro hs
  rw [hs] at h
  exact h rfl

/-- A row that the loop body turns into a record holds at least 7 commas. -/
theorem parseRow_ok_commas (row : List Char) (b : book) (hrow : LineBreakLast row)
    (h : parseRow row = .ok b) : 7 ≤ row.count ',' := by
  unfold parseRow at h
  simp only [] at h
  have hd0 : ∀ d ∈ [','], d = ',' ∨ d = '\n' := by simp
  have hd1 : ∀ d ∈ [',', '\n'], d = ',' ∨ d = '\n' := by simp
  obtain ⟨_, _, h⟩ := Outcome.bind_ok _ _ _ h
  obtain ⟨_, k1, h⟩ := Outcome.bind_ok _ _ _ h
  obtain ⟨_, k2, h⟩ := Outcome.bind_ok _ _ _ h
  obtain ⟨_, k3, h⟩ := Outcome.bind_ok _ _ _ h
  obtain ⟨_, k4, h⟩ := Outcome.bind_ok _ _ _ h
  obtain ⟨_, k5, h⟩ := Outcome.bind_ok _ _ _ h
  obtain ⟨_, k6, h⟩ := Outcome.bind_ok _ _ _ h
  obtain ⟨_, k7, _⟩ := Outcome.bind_ok _ _ _ h
  have n1 := strtok_some_ne_nil _ _ (strcpyArg_ok _ _ k1)
  have n2 := strtok_some_ne_nil _ _ (strcpyArg_ok _ _ k2)
  have n3 := strtok_some_ne_nil _ _ (atoiArg_ok _ _ k3)
  have n4 := strtok_some_ne_nil _ _ (atoiArg_ok _ _ k4)
  have n5 := strtok_some_ne_nil _ _ (atoiArg_ok _ _ k5)
  have n6 := strtok_some_ne_nil _ _ (atoiArg_ok _ _ k6)
  have n7 := strtok_some_ne_nil _ _ (strcpyArg_ok _ _ k7)
  have s0 := strtok_step _ _ hd0 hrow n1
  have s1 := strtok_step _ _ hd1 s0.2 n2
  have s2 := strtok_step _ _ hd1 s1.2 n3
  have s3 := strtok_step _ _ hd1 s2.2 n4
  have s4 := strtok_step _ _ hd1 s3.2 n5
  have s5 := strtok_step _ _ hd1 s4.2 n6
  have s6 := strtok_step _ _ hd1 s5.2 n7
  omega

theorem parseRow_nil : parseRow [] = .undefined .nullPointer := by
  decide

theorem fgets_rest_length (n : Nat) (fin row rest : List Char)
    (h : fgets n fin = some (row, rest)) (hrow : row ≠ []) : rest.length < fin.length := by
  unfold fgets at h
  cases fin with
  | nil => simp at h
  | cons c cs =>
    simp only [Option.some.injEq, Prod.mk.injEq] at h
    obtain ⟨h1, h2⟩ := h
    have hpos : 0 < row.length := List.length_pos.2 hrow
    rw [← h2, h1, List.length_drop]
    simp only [List.length_cons]
    omega

/-- The reading loop does not depend on the iteration bound once the bound
reaches the length of the unread text: it ends because `fgets` meets the end of
the file, not because the bound is used up. -/
theorem csvToStructs_loop_fuel (n : Nat) :
    ∀ (fuel1 fuel2 : Nat) (fin : List Char) (rowNum : Nat) (books : Nat → book),
      fin.length ≤ fuel1 → fin.length ≤ fuel2 →
      csvToStructs_loop n fuel1 fin rowNum books = csvToStructs_loop n fuel2 fin rowNum books := by
  intro fuel1
  induction fuel1 with
  | zero =>
    intro fuel2 fin rowNum books h1 _
    have hfin : fin = [] := List.eq_nil_of_length_eq_zero (by omega)
    subst hfin
    cases fuel2 with
    | zero => rfl
    | succ fuel2 => simp [csvToStructs_loop, fgets]
  | succ fuel1 ih =>
    intro fuel2 fin rowNum books h1 h2
    cases fuel2 with
    | zero =>
      have hfin : fin = [] := List.eq_nil_of_length_eq_zero (by omega)
      subst hfin
      simp [csvToStructs_loop, fgets]
    | succ fuel2 =>
      unfold csvToStructs_loop
      cases hg : fgets n fin with
      | none => rfl
      | some rr =>
        obtain ⟨row, rest⟩ := rr
        simp only
        cases hp : parseRow row with
        | undefined f => rfl
        | ok b =>
          simp only
          have hrow : row ≠ [] := by
            intro e
            rw [e, parseRow_nil] at hp
            exact Outcome.noConfusion hp
          have hlt := fgets_rest_length n fin row rest hg hrow
          exact ih fuel2 rest (rowNum + 1) _ (by omega) (by omega)

/-- Every row that `fgets` delivers with fewer than 8 fields makes the loop
body of `csvToStructs` undefined: no record is produced. -/
theorem parseRow_short_row (n : Nat) (fin row rest : List Char)
    (hrow : fgets n fin = some (row, rest)) (hshort : fieldCount row < 8) :
    ∃ f, parseRow row = .undefined f := by
  cases hp : parseRow row with
  | undefined f => exact ⟨f, rfl⟩
  | ok b =>
    have h7 := parseRow_ok_commas row b (fgets_lineBreakLast n fin row rest hrow) hp
    unfold fieldCount at hshort
    omega

/-- On a file that can be opened `csvToStructs` has no failure return: when it
returns, it returns 1. -/
theorem csvToStructs_returns_one (text : List Char) (n : Nat) (mem : Catalog) (r : Int)
    (cat : Catalog) (h : csvToStructs (some text) n mem = .ok (r, cat)) : r = 1 := by
  unfold csvToStructs at h
  simp only at h
  split at h
  · exact Outcome.noConfusion h
  · simp only [Outcome.ok.injEq, Prod.mk.injEq] at h
    exact h.1.symm

/-- C9 (code at the failing input): on the row `1,Emma` of 2 fields the third
`strtok` returns the null pointer, which `strcpy` receives: the loop body and
the whole of `csvToStructs` are undefined there, and no failure is returned. -/
theorem csvToStructs_short_row_undefined :
    fieldCount "1,Emma\n".toList = 2 ∧
    parseRow "1,Emma\n".toList = .undefined .nullPointer ∧
    csvToStructs (some (headerRow ++ "0,Dune,Herbert,1965,1700000000,0,0,0\n1,Emma\n".toList)) 500
      emptyCatalog = .undefined .nullPointer :=
  ⟨by decide, by decide, by rfl⟩

/-! ### Saving an added book and reading it back -/

/-- C7 (code at the failing input): a book added with an empty title is saved as
the row `0,,Herbert,1965,1700000000,0,0,0`; read back, `strtok` skips the empty
field, the row yields only 7 tokens and the `strcpy` of the name receives the
null pointer, so the record is not read back. -/
theorem addBook_empty_title_not_read_back :
    (addBook emptyCatalog [] "Herbert".toList 1965 1700000000).books 0
      = ⟨0, [], "Herbert".toList, 1965, 1700000000, 0, 0, ['0']⟩ ∧
    (saveFile (addBook emptyCatalog [] "Herbert".toList 1965 1700000000)).2
      = headerRow ++ "0,,Herbert,1965,1700000000,0,0,0\n".toList ∧
    parseRow (rowText ((addBook emptyCatalog [] "Herbert".toList 1965 1700000000).books 0))
      = .undefined .nullPointer ∧
    csvToStructs (some (saveFile (addBook emptyCatalog [] "Herbert".toList 1965 1700000000)).2)
      500 emptyCatalog = .undefined .nullPointer :=
  ⟨by decide, by decide, by decide, by rfl⟩

/-! ### Printed integers are read back -/

theorem toDigitsCore_all (P : Char → Prop) (hP : ∀ k : Nat, P (Nat.digitChar (k % 10))) :
    ∀ (fuel n : Nat) (acc : List Char), (∀ c ∈ acc, P c) →
      ∀ c ∈ Nat.toDigitsCore 10 fuel n acc, P c := by
  intro fuel
  induction fuel with
  | zero => intro n acc h; simpa [Nat.toDigitsCore] using h
  | succ fuel ih =>
    intro n acc h
    have hacc : ∀ c ∈ Nat.digitChar (n % 10) :: acc, P c := by
      intro c hm
      rcases List.mem_cons.1 hm with h1 | h1
      · exact h1 ▸ hP n
      · exact h c h1
    unfold Nat.toDigitsCore
    by_cases h0 : n / 10 = 0
    · simpa [h0] using hacc
    · simp only [h0, if_false]
      exact ih _ _ hacc

theorem toDigitsCore_append :
    ∀ (fuel n : Nat) (acc : List Char),
      Nat.toDigitsCore 10 fuel n acc = Nat.toDigitsCore 10 fuel n [] ++ acc := by
  intro fuel
  induction fuel with
  | zero => intro n acc; simp [Nat.toDigitsCore]
  | succ fuel ih =>
    intro n acc
    unfold Nat.toDigitsCore
    by_cases h0 : n / 10 = 0
    · simp [h0]
    · simp only [h0, if_false]
      rw [ih _ (Nat.digitChar (n % 10) :: acc), ih _ [Nat.digitChar (n % 10)]]
      simp

theorem digitChar_value (n : Nat) :
    (Nat.digitChar (n % 10)).toNat - '0'.toNat = n % 10 := by
  have h : n % 10 < 10 := Nat.mod_lt n (by norm_num)
  generalize n % 10 = k at h
  interval_cases k <;> decide

theorem digitChar_isDigit (n : Nat) : (Nat.digitChar (n % 10)).isDigit = true := by
  have h : n % 10 < 10 := Nat.mod_lt n (by norm_num)
  generalize n % 10 = k at h
  interval_cases k <;> decide

theorem digitChar_not_special (n : Nat) :
    isspace (Nat.digitChar (n % 10)) = false ∧ Nat.digitChar (n % 10) ≠ '-' ∧
    Nat.digitChar (n % 10) ≠ '+' ∧ Nat.digitChar (n % 10) ≠ '\n' := by
  have h : n % 10 < 10 := Nat.mod_lt n (by norm_num)
  generalize n % 10 = k at h
  interval_cases k <;> decide

theorem digitsValue_append (xs : List Char) (d : Char) :
    digitsValue (xs ++ [d]) = digitsValue xs * 10 + (d.toNat - '0'.toNat) := by
  simp [digitsValue, List.foldl_append]

theorem digitsValue_toDigitsCore :
    ∀ (fuel n : Nat), n < fuel → digitsValue (Nat.toDigitsCore 10 fuel n []) = n := by
  intro fuel
  induction fuel with
  | zero => intro n h; omega
  | succ fuel ih =>
    intro n h
    unfold Nat.toDigitsCore
    by_cases h0 : n / 10 = 0
    · simp only [h0, if_true]
      have : digitsValue [Nat.digitChar (n % 10)] = (Nat.digitChar (n % 10)).toNat - '0'.toNat := by
        simp [digitsValue]
      rw [this, digitChar_value]
      omega
    · simp only [h0, if_false]
      rw [toDigitsCore_append, digitsValue_append, ih (n / 10) (by omega), digitChar_value]
      omega

theorem digitsValue_toDigits (n : Nat) : digitsValue (Nat.toDigits 10 n) = n :=
  digitsValue_toDigitsCore (n + 1) n (by omega)

theorem toDigits_head (n : Nat) :
    ∃ k cs, Nat.toDigits 10 n = Nat.digitChar (k % 10) :: cs := by
  have hall := toDigitsCore_all (fun c => ∃ k : Nat, c = Nat.digitChar (k % 10))
    (fun k => ⟨k, rfl⟩) (n + 1) n [] (by simp)
  cases hd : Nat.toDigits 10 n with
  | nil =>
    exfalso
    unfold Nat.toDigits Nat.toDigitsCore at hd
    by_cases h0 : n / 10 = 0
    · simp [h0] at hd
    · simp only [h0, if_false] at hd
      rw [toDigitsCore_append] at hd
      simp at hd
  | cons c cs =>
    unfold Nat.toDigits at hd
    obtain ⟨k, hk⟩ := hall c (by rw [hd]; simp)
    exact ⟨k, cs, by rw [hk]⟩

theorem takeWhile_all {p : Char → Bool} (l : List Char) (h : ∀ c ∈ l, p c = true) :
    l.takeWhile p = l := by
  induction l with
  | nil => rfl
  | cons c cs ih =>
    simp [List.takeWhile_cons, h c (by simp), ih (fun x hx => h x (by simp [hx]))]

theorem toDigits_isDigit (n : Nat) : ∀ c ∈ Nat.toDigits 10 n, c.isDigit = true :=
  toDigitsCore_all (fun c => c.isDigit = true) digitChar_isDigit (n + 1) n [] (by simp)

theorem atoi_toDigits (n : Nat) (h : (n : Int) ≤ INT_MAX) : atoi (Nat.toDigits 10 n) = n := by
  obtain ⟨k, cs, hk⟩ := toDigits_head n
  obtain ⟨hsp, hminus, hplus, _⟩ := digitChar_not_special k
  have htw : (Nat.toDigits 10 n).takeWhile Char.isDigit = Nat.toDigits 10 n :=
    takeWhile_all _ (toDigits_isDigit n)
  have hval := digitsValue_toDigits n
  rw [hk] at htw hval
  unfold atoi
  rw [hk]
  simp only [List.dropWhile_cons, hsp]
  split
  · rename_i r heq
    simp only [Bool.false_eq_true, if_false, List.cons.injEq] at heq
    exact absurd heq.1 hminus
  · rename_i r heq
    simp only [Bool.false_eq_true, if_false, List.cons.injEq] at heq
    exact absurd heq.1 hplus
  · simp only [Bool.false_eq_true, if_false]
    rw [htw, hval]
    unfold INT_MIN INT_MAX at *
    omega

/-- Reading back a printed `int` gives the `int`. -/
theorem atoi_fmtInt (v : Int) (h1 : INT_MIN ≤ v) (h2 : v ≤ INT_MAX) : atoi (fmtInt v) = v := by
  unfold fmtInt
  by_cases hv : v < 0
  · rw [if_pos hv]
    have htw : (Nat.toDigits 10 v.natAbs).takeWhile Char.isDigit = Nat.toDigits 10 v.natAbs :=
      takeWhile_all _ (toDigits_isDigit _)
    have hsp : isspace '-' = false := by decide
    unfold atoi
    simp only [List.dropWhile_cons, hsp, Bool.false_eq_true, if_false]
    rw [htw, digitsValue_toDigits]
    unfold INT_MIN INT_MAX at *
    omega
  · rw [if_neg hv]
    have hn : ((v.toNat : Nat) : Int) = v := Int.toNat_of_nonneg (by omega)
    rw [atoi_toDigits v.toNat (by rw [hn]; exact h2), hn]
theorem wrapInt_range (x : Int) : INT_MIN ≤ wrapInt x ∧ wrapInt x ≤ INT_MAX := by
  unfold wrapInt INT_MIN INT_MAX
  omega

theorem fmtInt_fieldText (v : Int) : FieldText (fmtInt v) := by
  have hnc := fmtInt_no_comma v
  refine ⟨?_, hnc, ?_⟩
  · unfold fmtInt
    by_cases hv : v < 0
    · simp [hv]
    · rw [if_neg hv]
      obtain ⟨k, cs, hk⟩ := toDigits_head v.toNat
      rw [hk]
      simp
  · unfold fmtInt Nat.toDigits
    have hd : ∀ n : Nat, ∀ c ∈ Nat.toDigitsCore 10 (n + 1) n [], c ≠ '\n' :=
      fun n => toDigitsCore_all (fun c => c ≠ '\n') (fun k => (digitChar_not_special k).2.2.2)
        (n + 1) n [] (by simp)
    by_cases hv : v < 0
    · rw [if_pos hv]
      intro hm
      rcases List.mem_cons.1 hm with h1 | h1
      · exact absurd h1 (by decide)
      · exact hd _ _ h1 rfl
    · rw [if_neg hv]
      intro hm
      exact hd _ _ hm rfl

theorem fgetsChars_dropLast_mem :
    ∀ (k : Nat) (l : List Char), ∀ c ∈ (fgetsChars k l).dropLast, c ∈ l ∧ c ≠ '\n' := by
  intro k
  induction k with
  | zero => intro l c hc; simp [fgetsChars] at hc
  | succ k ih =>
    intro l c hc
    cases l with
    | nil => simp [fgetsChars] at hc
    | cons x xs =>
      by_cases hx : x = '\n'
      · simp [fgetsChars, hx] at hc
      · simp only [fgetsChars, if_neg hx] at hc
        cases hr : fgetsChars k xs with
        | nil => simp [hr] at hc
        | cons y ys =>
          rw [hr, List.dropLast_cons₂] at hc
          rcases List.mem_cons.1 hc with h1 | h1
          · subst h1
            exact ⟨by simp, hx⟩
          · have := ih xs c (by rw [hr]; exact h1)
            exact ⟨by simp [this.1], this.2⟩

/-- A text read from the console consists of typed characters and holds no line
break. -/
theorem readField_mem (typed : List Char) : ∀ c ∈ readField typed, c ∈ typed ∧ c ≠ '\n' := by
  intro c hc
  have h := fgetsChars_dropLast_mem (51 - 1) (typed ++ ['\n']) c hc
  refine ⟨?_, h.2⟩
  rcases List.mem_append.1 h.1 with h1 | h1
  · exact h1
  · rw [List.mem_singleton] at h1
    exact absurd h1 h.2

theorem readField_fieldText (typed : List Char) (hne : readField typed ≠ [])
    (hc : ',' ∉ typed) : FieldText (readField typed) :=
  ⟨hne, fun h => hc (readField_mem typed _ h).1, fun h => (readField_mem typed _ h).2 rfl⟩

/-- The record that `addBook` creates, on a catalog with room in the array of
`main`, from a non-empty title and author without `,` is left as it is by
`saveFile`, and its saved row is read back by the loop body of `csvToStructs`
as the same record, field for field. -/
theorem addBook_row_read_back (s : Catalog) (typedTitle typedAuthor : List Char) (y c : Int)
    (hcap : s.numRows < maxRows) (hy1 : INT_MIN ≤ y) (hy2 : y ≤ INT_MAX)
    (ht : readField typedTitle ≠ []) (ha : readField typedAuthor ≠ [])
    (htc : ',' ∉ typedTitle) (hac : ',' ∉ typedAuthor) :
    (saveFile (addBook s typedTitle typedAuthor y c)).1.books s.numRows
      = (addBook s typedTitle typedAuthor y c).books s.numRows ∧
    parseRow (rowText ((saveFile (addBook s typedTitle typedAuthor y c)).1.books s.numRows))
      = .ok ((addBook s typedTitle typedAuthor y c).books s.numRows) := by
  have hN : (s.numRows : Int) ≤ INT_MAX := by
    unfold maxRows at hcap
    unfold INT_MAX
    omega
  have hT := readField_fieldText typedTitle ht htc
  have hA := readField_fieldText typedAuthor ha hac
  have hb : (addBook s typedTitle typedAuthor y c).books s.numRows =
      { index := (s.numRows : Int), title := readField typedTitle,
        author := readField typedAuthor, pub_year := y, date_added := wrapInt c,
        date_out := 0, date_due := 0, name := ['0'] } := by
    simp [addBook, setBook]
  have hsave : (saveFile (addBook s typedTitle typedAuthor y c)).1.books s.numRows
      = (addBook s typedTitle typedAuthor y c).books s.numRows := by
    rw [saveFile_books_apply, if_pos (by simp [addBook]), hb]
    simp only [saveFile_escape]
    rw [replaceCommas_of_no_comma _ hT.2.1, replaceCommas_of_no_comma _ hA.2.1,
      replaceCommas_of_no_comma ['0'] (by decide)]
  refine ⟨hsave, ?_⟩
  rw [hsave, hb]
  have hfields : ∀ f ∈ [fmtInt (wrapInt (s.numRows : Int)), readField typedTitle,
      readField typedAuthor, fmtInt (wrapInt y), fmtInt (wrapInt (wrapInt c)),
      fmtInt (wrapInt 0), fmtInt (wrapInt 0), ['0']], FieldText f := by
    intro f hf
    rcases List.mem_cons.1 hf with h | hf
    · rw [h]; exact fmtInt_fieldText _
    rcases List.mem_cons.1 hf with h | hf
    · rw [h]; exact hT
    rcases List.mem_cons.1 hf with h | hf
    · rw [h]; exact hA
    rcases List.mem_cons.1 hf with h | hf
    · rw [h]; exact fmtInt_fieldText _
    rcases List.mem_cons.1 hf with h | hf
    · rw [h]; exact fmtInt_fieldText _
    rcases List.mem_cons.1 hf with h | hf
    · rw [h]; exact fmtInt_fieldText _
    rcases List.mem_cons.1 hf with h | hf
    · rw [h]; exact fmtInt_fieldText _
    rw [List.mem_singleton] at hf
    rw [hf]
    exact ⟨by simp, by decide, by decide⟩
  have hparse := parseRow_fields _ _ _ _ _ _ _ _ hfields
    (by have := readField_length_le typedTitle; omega)
    (by have := readField_length_le typedAuthor; omega) (by simp)
  have hr0 := wrapInt_range 0
  have hrc := wrapInt_range c
  have hrcc := wrapInt_range (wrapInt c)
  have hw0 : wrapInt 0 = 0 := by decide
  have hwN : wrapInt (s.numRows : Int) = s.numRows :=
    wrapInt_of_range _ (by unfold INT_MIN; omega) hN
  have hwy : wrapInt y = y := wrapInt_of_range _ hy1 hy2
  have hwc : wrapInt (wrapInt c) = wrapInt c := wrapInt_of_range _ hrc.1 hrc.2
  unfold rowText
  simp only [List.append_assoc, List.cons_append, List.nil_append] at hparse ⊢
  rw [hparse, hwN, hwy, hwc, hw0]
  rw [atoi_fmtInt _ (by unfold INT_MIN; omega) hN, atoi_fmtInt _ hy1 hy2,
    atoi_fmtInt _ hrc.1 hrc.2, atoi_fmtInt 0 (by decide) (by decide)]

theorem addBook_row_read_back_witness :
    parseRow (rowText ((saveFile
        (addBook sampleCatalog "Dune".toList "Herbert".toList 1965 1700000000)).1.books 3))
      = .ok ⟨3, "Dune".toList, "Herbert".toList, 1965, 1700000000, 0, 0, ['0']⟩ :=
  (addBook_row_read_back sampleCatalog "Dune".toList "Herbert".toList 1965 1700000000
    (by decide) (by decide) (by decide) (by decide) (by decide) (by decide) (by decide)).2.trans
    (by decide)

/-! ### The slots that the shifting loop touches -/

/-- The recorded loop computes the array of `deleteBook_loop`. -/
theorem deleteBook_trace_books (numRows : Nat) :
    ∀ (fuel i : Nat) (books : Nat → book),
      (deleteBook_trace numRows fuel i books).1 = deleteBook_loop numRows fuel i books := by
  intro fuel
  induction fuel with
  | zero => intro i books; rfl
  | succ fuel ih =>
    intro i books
    unfold deleteBook_trace deleteBook_loop
    by_cases hi : i < numRows
    · simp only [if_pos hi]
      exact ih _ _
    · simp only [if_neg hi]

theorem deleteBook_trace_accesses (numRows : Nat) :
    ∀ (fuel i : Nat) (books : Nat → book), numRows - i ≤ fuel →
      (deleteBook_trace numRows fuel i books).2 =
        ((List.range' i (numRows - i)).map fun j =>
          [Access.read (j + 1), Access.write j, Access.read j, Access.write j]).flatten := by
  intro fuel
  induction fuel with
  | zero =>
    intro i books h
    have h0 : numRows - i = 0 := by omega
    simp [deleteBook_trace, h0]
  | succ fuel ih =>
    intro i books h
    unfold deleteBook_trace
    by_cases hi : i < numRows
    · have hk : numRows - i = (numRows - (i + 1)) + 1 := by omega
      simp only [if_pos hi]
      rw [ih (i + 1) _ (by omega), hk, List.range'_succ, List.map_cons, List.flatten_cons]
    · have h0 : numRows - i = 0 := by omega
      simp [hi, h0]

/-- For every catalog and valid position the shifting loop reads slot `numRows`,
the slot after the last record; every slot it writes holds a record, and no
slot after `numRows` is touched. -/
theorem deleteBook_reads_past_end (s : Catalog) (p : Nat) (hp : p < s.numRows) :
    Access.read s.numRows ∈ deleteBook_accesses s p ∧
    (∀ k, Access.write k ∈ deleteBook_accesses s p → p ≤ k ∧ k < s.numRows) ∧
    (∀ a, a ∈ deleteBook_accesses s p → a.slot ≤ s.numRows) := by
  unfold deleteBook_accesses
  rw [deleteBook_trace_accesses s.numRows s.numRows p s.books (by omega)]
  simp only [List.mem_flatten, List.mem_map, List.mem_range'_1]
  refine ⟨?_, ?_, ?_⟩
  · refine ⟨_, ⟨s.numRows - 1, ⟨by omega, by omega⟩, rfl⟩, ?_⟩
    have h1 : s.numRows - 1 + 1 = s.numRows := by omega
    simp [h1]
  · rintro k ⟨l, ⟨j, ⟨hj1, hj2⟩, rfl⟩, hk⟩
    have hkj : k = j := by
      simp only [List.mem_cons, List.mem_singleton, List.not_mem_nil, or_false] at hk
      rcases hk with h | h | h | h
      · exact Access.noConfusion h
      · exact Access.write.inj h
      · exact Access.noConfusion h
      · exact Access.write.inj h
    omega
  · rintro a ⟨l, ⟨j, ⟨hj1, hj2⟩, rfl⟩, ha⟩
    simp only [List.mem_cons, List.mem_singleton, List.not_mem_nil, or_false] at ha
    rcases ha with h | h | h | h <;> subst h <;> simp only [Access.slot] <;> omega

theorem deleteBook_reads_past_end_witness :
    1 < sampleCatalog.numRows ∧ Access.read 3 ∈ deleteBook_accesses sampleCatalog 1 :=
  ⟨by decide, (deleteBook_reads_past_end sampleCatalog 1 (by decide)).1⟩

/-- C14 (code at the failing input): deleting position 1 of a catalog of 3
records, the loop runs for `i = 1` and `i = 2` and in the last round reads slot
3, which holds no record; deleting position 99 of a catalog of 100 records, it
reads slot 100, outside the 100-slot array of `main`. -/
theorem deleteBook_accesses_out_of_catalog :
    sampleCatalog.numRows = 3 ∧
    deleteBook_accesses sampleCatalog 1 =
      [Access.read 2, Access.write 1, Access.read 1, Access.write 1,
       Access.read 3, Access.write 2, Access.read 2, Access.write 2] ∧
    fullCatalog.numRows = 100 ∧ maxRows = 100 ∧
    deleteBook_accesses fullCatalog 99 =
      [Access.read 100, Access.write 99, Access.read 99, Access.write 99] ∧
    (deleteBook fullCatalog 99 'y').books 99 = { sampleRest with index := -8 } :=
  ⟨by decide, by decide, by decide, by decide, by decide, by decide⟩

/-! ### Adding a book -/

theorem addBook_in_full (typedTitle typedAuthor : List Char) (y c : Int) :
    addBook_in maxRows fullCatalog typedTitle typedAuthor y c = .undefined .overflow := by
  rfl

/-- C11, as stated, fails: on a catalog of 100 records `addBook` writes slot 100,
outside the 100-slot array of `main`; a title of 51 characters (and one of 50)
is stored as its first 49 characters; and the current date 2147483648 is
stored as `date_added = -2147483648`. -/
theorem addBook_counterexample :
    fullCatalog.numRows = 100 ∧ maxRows = 100 ∧
    addBook_in maxRows fullCatalog "Dune".toList "Herbert".toList 1965 1700000000
      = .undefined .overflow ∧
    ((addBook emptyCatalog (List.replicate 51 'a') "Herbert".toList 1965 1700000000).books 0).title
      = List.replicate 49 'a' ∧
    ((addBook emptyCatalog (List.replicate 50 'a') "Herbert".toList 1965 1700000000).books 0).title
      = List.replicate 49 'a' ∧
    ((addBook emptyCatalog "Dune".toList "Herbert".toList 1965 2147483648).books 0).date_added
      = -2147483648 :=
  ⟨by decide, by decide, addBook_in_full _ _ _ _, by decide, by decide, by decide⟩

/-- C11 (amended): for every catalog of `N` records with `N < 100` (the capacity
of the array of `main`), every title and author of fewer than 50 characters
typed on one line, every `pub_year` and every current date within the `int`
range, `addBook` does not fail and yields a catalog of `N + 1` records whose
first `N` records are unchanged and whose record at position `N` has index `N`,
the given title, author and `pub_year`, `date_added` equal to the current date,
and is available (`date_out` 0, `date_due` 0, `name` "0"); on the empty catalog,
adding ("Dune", "Herbert", 1965) gives `numRows = 1` and record 0 with index 0. -/
theorem addBook_appends (s : Catalog) (typedTitle typedAuthor : List Char) (y c : Int)
    (hN : s.numRows < maxRows)
    (htl : '\n' ∉ typedTitle) (ht : typedTitle.length < 50)
    (hal : '\n' ∉ typedAuthor) (ha : typedAuthor.length < 50)
    (hc1 : INT_MIN ≤ c) (hc2 : c ≤ INT_MAX) :
    addBook_in maxRows s typedTitle typedAuthor y c
      = .ok (addBook s typedTitle typedAuthor y c) ∧
    (addBook s typedTitle typedAuthor y c).numRows = s.numRows + 1 ∧
    (∀ i, i < s.numRows → (addBook s typedTitle typedAuthor y c).books i = s.books i) ∧
    (addBook s typedTitle typedAuthor y c).books s.numRows =
      { index := (s.numRows : Int), title := typedTitle, author := typedAuthor, pub_year := y,
        date_added := c, date_out := 0, date_due := 0, name := ['0'] } ∧
    (∀ c0 : Int, (addBook emptyCatalog "Dune".toList "Herbert".toList 1965 c0).numRows = 1 ∧
      ((addBook emptyCatalog "Dune".toList "Herbert".toList 1965 c0).books 0).index = 0 ∧
      ((addBook emptyCatalog "Dune".toList "Herbert".toList 1965 c0).books 0).title
        = "Dune".toList ∧
      ((addBook emptyCatalog "Dune".toList "Herbert".toList 1965 c0).books 0).author
        = "Herbert".toList ∧
      ((addBook emptyCatalog "Dune".toList "Herbert".toList 1965 c0).books 0).pub_year = 1965 ∧
      ((addBook emptyCatalog "Dune".toList "Herbert".toList 1965 c0).books 0).date_out = 0) := by
  refine ⟨?_, rfl, ?_, ?_, ?_⟩
  · unfold addBook_in
    rw [if_pos hN]
  · intro i hi
    simp only [addBook]
    exact setBook_other _ _ _ _ (by omega)
  · simp only [addBook, setBook_same]
    rw [readField_short typedTitle htl ht, readField_short typedAuthor hal ha,
      wrapInt_of_range c hc1 hc2]
  · intro c0
    have hb : (addBook emptyCatalog "Dune".toList "Herbert".toList 1965 c0).books 0 =
        ⟨0, "Dune".toList, "Herbert".toList, 1965, wrapInt c0, 0, 0, ['0']⟩ := by
      have h0 : emptyCatalog.numRows = 0 := rfl
      simp only [addBook, h0, setBook_same]
      rw [readField_short "Dune".toList (by decide) (by decide),
        readField_short "Herbert".toList (by decide) (by decide)]
      rfl
    rw [hb]
    exact ⟨rfl, rfl, rfl, rfl, rfl, rfl⟩

theorem addBook_appends_witness :
    sampleCatalog.numRows < maxRows ∧
    addBook_in maxRows sampleCatalog "Dune".toList "Herbert".toList 1965 1700000000
      = .ok (addBook sampleCatalog "Dune".toList "Herbert".toList 1965 1700000000) ∧
    (addBook sampleCatalog "Dune".toList "Herbert".toList 1965 1700000000).numRows = 4 ∧
    (addBook sampleCatalog "Dune".toList "Herbert".toList 1965 1700000000).books 3
      = ⟨3, "Dune".toList, "Herbert".toList, 1965, 1700000000, 0, 0, ['0']⟩ :=
  have h := addBook_appends sampleCatalog "Dune".toList "Herbert".toList 1965 1700000000
    (by decide) (by decide) (by decide) (by decide) (by decide) (by decide) (by decide)
  ⟨by decide, h.1, h.2.1, h.2.2.2.1⟩

/-! ### Searching by title and by author -/

/-- `strstr` finds an occurrence exactly when the needle is a substring. -/
theorem strstr_isSome_iff (needle : List Char) :
    ∀ haystack : List Char, (strstr haystack needle).isSome = true ↔ needle <:+: haystack := by
  intro haystack
  induction haystack with
  | nil =>
    unfold strstr
    by_cases h : needle = []
    · simp [h]
    · simp [h]
  | cons c cs ih =>
    unfold strstr
    by_cases hp : needle.isPrefixOf (c :: cs) = true
    · rw [if_pos hp]
      simp only [Option.isSome_some, true_iff]
      exact (List.isPrefixOf_iff_prefix.1 hp).isInfix
    · rw [if_neg hp, ih, List.infix_cons_iff]
      have hnp : ¬ needle <+: c :: cs := fun h => hp (List.isPrefixOf_iff_prefix.2 h)
      constructor
      · exact fun h => Or.inr h
      · rintro (h | h)
        · exact absurd h hnp
        · exact h

theorem searchBooks_upper_eq (text : List Char) (h : text.length ≤ 50) :
    searchBooks_upper text = text.map toupper := by
  unfold searchBooks_upper
  rw [List.take_of_length_le h, List.drop_of_length_le h, List.append_nil]

theorem searchBooks_term_eq (typed : List Char) (hline : '\n' ∉ typed)
    (hlen : typed.length < 50) : searchBooks_term typed = typed.map toupper := by
  unfold searchBooks_term
  rw [readField_short typed hline hlen]

theorem searchBooks_loop_eq (s : Catalog) (choice : Char) (term : List Char) :
    ∀ (fuel i : Nat), s.numRows - i ≤ fuel →
      searchBooks_loop s choice term fuel i =
        ((List.range' i (s.numRows - i)).filter
            fun j => searchBooks_match choice term (s.books j)).map
          fun j => searchBooks_line (s.books j) := by
  intro fuel
  induction fuel with
  | zero =>
    intro i h
    have h0 : s.numRows - i = 0 := by omega
    simp [searchBooks_loop, h0]
  | succ fuel ih =>
    intro i h
    unfold searchBooks_loop
    by_cases hi : i < s.numRows
    · have hk : s.numRows - i = (s.numRows - (i + 1)) + 1 := by omega
      rw [if_pos hi, ih (i + 1) (by omega), hk, List.range'_succ, List.filter_cons]
      by_cases hm : searchBooks_match choice term (s.books i) = true
      · rw [if_pos hm, if_pos hm, List.map_cons]
        rfl
      · rw [if_neg hm, if_neg hm]
        rfl
    · have h0 : s.numRows - i = 0 := by omega
      simp [hi, h0]

theorem searchBooks_lines (s : Catalog) (choice : Char) (typedTerm : List Char) :
    (searchBooks s choice typedTerm).2 =
      ((List.range s.numRows).filter
          fun j => searchBooks_match choice (searchBooks_term typedTerm) (s.books j)).map
        fun j => searchBooks_line (s.books j) := by
  unfold searchBooks
  simp only
  rw [searchBooks_loop_eq s choice _ s.numRows 0 (by omega), List.range_eq_range']
  rfl

theorem searchBooks_match_title (typed : List Char) (b : book) (hline : '\n' ∉ typed)
    (hlen : typed.length < 50) (hb : b.title.length ≤ 50) :
    searchBooks_match 't' (searchBooks_term typed) b = decide (containsIgnoringCase typed b.title) := by
  unfold searchBooks_match containsIgnoringCase
  rw [if_pos rfl, searchBooks_term_eq typed hline hlen, searchBooks_upper_eq _ hb]
  rw [Bool.eq_iff_iff, strstr_isSome_iff]
  simp

theorem searchBooks_match_author (typed : List Char) (b : book) (hline : '\n' ∉ typed)
    (hlen : typed.length < 50) (hb : b.author.length ≤ 50) :
    searchBooks_match 'a' (searchBooks_term typed) b = decide (containsIgnoringCase typed b.author) := by
  unfold searchBooks_match containsIgnoringCase
  rw [if_neg (by decide), if_pos rfl, searchBooks_term_eq typed hline hlen,
    searchBooks_upper_eq _ hb]
  rw [Bool.eq_iff_iff, strstr_isSome_iff]
  simp

/-- C12, as stated, fails: for a search term of 50 letters `a` (and one of 51)
`searchBooks` lists the book whose title is 49 letters `a`, which does not
contain the term: the term is searched for after the loss of its characters
from the 50th on. -/
theorem searchBooks_counterexample :
    (searchBooks sampleLongTitle 't' (List.replicate 51 'a')).2
      = [⟨1, List.replicate 49 'a', "A".toList, 2000, false⟩] ∧
    ¬ containsIgnoringCase (List.replicate 51 'a') (sampleLongTitle.books 0).title ∧
    (searchBooks sampleLongTitle 't' (List.replicate 50 'a')).2
      = [⟨1, List.replicate 49 'a', "A".toList, 2000, false⟩] ∧
    ¬ containsIgnoringCase (List.replicate 50 'a') (sampleLongTitle.books 0).title := by
  decide

/-- C12 (amended): for every catalog (its titles and authors of at most 50
characters, as a `char[51]` member holds) and every search term of fewer than
50 characters typed on one line, `searchBooks` by title (respectively by author)
lists, in catalog order, exactly the records whose title (respectively author)
contains the term as a substring when both are compared after uppercasing every
character; the test does not depend on the letter case of the term or of the
stored text; and the catalog is left as it was. -/
theorem searchBooks_lists_matches (s : Catalog) (typedTerm : List Char)
    (hline : '\n' ∉ typedTerm) (hlen : typedTerm.length < 50)
    (hs : ∀ i, i < s.numRows → (s.books i).title.length ≤ 50 ∧ (s.books i).author.length ≤ 50) :
    (searchBooks s 't' typedTerm).2 =
      ((List.range s.numRows).filter
          fun i => decide (containsIgnoringCase typedTerm (s.books i).title)).map
        (fun i => searchBooks_line (s.books i)) ∧
    (searchBooks s 'a' typedTerm).2 =
      ((List.range s.numRows).filter
          fun i => decide (containsIgnoringCase typedTerm (s.books i).author)).map
        (fun i => searchBooks_line (s.books i)) ∧
    (∀ typed2 : List Char, '\n' ∉ typed2 → typed2.length < 50 →
      typed2.map toupper = typedTerm.map toupper →
      (searchBooks s 't' typed2).2 = (searchBooks s 't' typedTerm).2 ∧
      (searchBooks s 'a' typed2).2 = (searchBooks s 'a' typedTerm).2) ∧
    (∀ b b2 : book, b.title.length ≤ 50 → b2.title.length ≤ 50 →
      b2.title.map toupper = b.title.map toupper →
      searchBooks_match 't' (searchBooks_term typedTerm) b2
        = searchBooks_match 't' (searchBooks_term typedTerm) b) ∧
    (∀ b b2 : book, b.author.length ≤ 50 → b2.author.length ≤ 50 →
      b2.author.map toupper = b.author.map toupper →
      searchBooks_match 'a' (searchBooks_term typedTerm) b2
        = searchBooks_match 'a' (searchBooks_term typedTerm) b) ∧
    (∀ choice, (searchBooks s choice typedTerm).1 = s) := by
  have ht : (searchBooks s 't' typedTerm).2 =
      ((List.range s.numRows).filter
          fun i => decide (containsIgnoringCase typedTerm (s.books i).title)).map
        (fun i => searchBooks_line (s.books i)) := by
    rw [searchBooks_lines]
    congr 1
    apply List.filter_congr
    intro i hi
    exact searchBooks_match_title typedTerm _ hline hlen (hs i (List.mem_range.1 hi)).1
  have ha : (searchBooks s 'a' typedTerm).2 =
      ((List.range s.numRows).filter
          fun i => decide (containsIgnoringCase typedTerm (s.books i).author)).map
        (fun i => searchBooks_line (s.books i)) := by
    rw [searchBooks_lines]
    congr 1
    apply List.filter_congr
    intro i hi
    exact searchBooks_match_author typedTerm _ hline hlen (hs i (List.mem_range.1 hi)).2
  refine ⟨ht, ha, ?_, ?_, ?_, fun _ => rfl⟩
  · intro typed2 hline2 hlen2 hup
    have hterm : searchBooks_term typed2 = searchBooks_term typedTerm := by
      rw [searchBooks_term_eq typed2 hline2 hlen2, searchBooks_term_eq typedTerm hline hlen, hup]
    simp only [searchBooks, hterm, and_self]
  · intro b b2 hb hb2 hup
    rw [searchBooks_match_title typedTerm b2 hline hlen hb2,
      searchBooks_match_title typedTerm b hline hlen hb]
    exact decide_eq_decide.2 (by unfold containsIgnoringCase; rw [hup])
  · intro b b2 hb hb2 hup
    rw [searchBooks_match_author typedTerm b2 hline hlen hb2,
      searchBooks_match_author typedTerm b hline hlen hb]
    exact decide_eq_decide.2 (by unfold containsIgnoringCase; rw [hup])

theorem searchBooks_lists_matches_witness :
    (searchBooks sampleShelf 't' "dUnE".toList).2
      = [⟨1, "Dune".toList, "Frank Herbert".toList, 1965, false⟩,
         ⟨3, "Dune Messiah".toList, "Frank Herbert".toList, 1969, false⟩] ∧
    (searchBooks sampleShelf 'a' "dUnE".toList).2 = [] ∧
    (searchBooks sampleShelf 't' "DUNE".toList).2 = (searchBooks sampleShelf 't' "dUnE".toList).2 :=
  have h := searchBooks_lists_matches sampleShelf "dUnE".toList (by decide) (by decide)
    (by decide)
  ⟨h.1.trans (by decide), h.2.1.trans (by decide),
    (h.2.2.1 "DUNE".toList (by decide) (by decide) (by decide)).1⟩

/-! ### Dates: text and instant -/

theorem isDigit_not_special (c : Char) (h : c.isDigit = true) :
    isspace c = false ∧ c ≠ '-' ∧ c ≠ '+' := by
  refine ⟨?_, ?_, ?_⟩
  · cases hs : isspace c with
    | false => rfl
    | true =>
      exfalso
      simp only [isspace, Bool.or_eq_true, decide_eq_true_eq] at hs
      rcases hs with ((((h1 | h1) | h1) | h1) | h1) | h1 <;> subst h1 <;> exact absurd h (by decide)
  · intro e
    subst e
    exact absurd h (by decide)
  · intro e
    subst e
    exact absurd h (by decide)

theorem dropWhile_all {p : Char → Bool} (l : List Char) (h : ∀ c ∈ l, p c = true) :
    l.dropWhile p = [] := by
  induction l with
  | nil => rfl
  | cons c cs ih =>
    simp [List.dropWhile_cons, h c (by simp), ih (fun x hx => h x (by simp [hx]))]

theorem takeWhile_digits (ds rest : List Char) (hall : ∀ c ∈ ds, c.isDigit = true)
    (hrest : ∀ c r, rest = c :: r → c.isDigit = false) :
    (ds ++ rest).takeWhile Char.isDigit = ds ∧ (ds ++ rest).dropWhile Char.isDigit = rest := by
  cases rest with
  | nil =>
    rw [List.append_nil]
    exact ⟨takeWhile_all ds hall, dropWhile_all ds hall⟩
  | cons c r =>
    exact ⟨takeWhile_append_stop ds r c hall (hrest c r rfl),
      dropWhile_append_stop ds r c hall (hrest c r rfl)⟩

/-- `%d` reads a non-empty run of digits up to the first other character. -/
theorem scanInt_digits (ds rest : List Char) (hne : ds ≠ [])
    (hall : ∀ c ∈ ds, c.isDigit = true) (hrest : ∀ c r, rest = c :: r → c.isDigit = false)
    (hval : (digitsValue ds : Int) ≤ INT_MAX) :
    scanInt (ds ++ rest) = some ((digitsValue ds : Int), rest) := by
  obtain ⟨c, cs, rfl⟩ := List.exists_cons_of_ne_nil hne
  obtain ⟨hsp, hminus, hplus⟩ := isDigit_not_special c (hall c (by simp))
  obtain ⟨htw, hdw⟩ := takeWhile_digits (c :: cs) rest hall hrest
  have hclamp : max INT_MIN (min INT_MAX (digitsValue (c :: cs) : Int)) = digitsValue (c :: cs) := by
    unfold INT_MIN INT_MAX at *
    omega
  unfold scanInt
  simp only [List.cons_append, List.dropWhile_cons, hsp, Bool.false_eq_true, if_false]
  split
  · rename_i r heq
    simp only [List.cons.injEq] at heq
    exact absurd heq.1 hminus
  · rename_i r heq
    simp only [List.cons.injEq] at heq
    exact absurd heq.1 hplus
  · rw [← List.cons_append, htw, hdw, hclamp]
    simp

theorem digitsValue_zeros (k : Nat) (ds : List Char) :
    digitsValue (List.replicate k '0' ++ ds) = digitsValue ds := by
  unfold digitsValue
  rw [List.foldl_append]
  congr 1
  induction k with
  | zero => rfl
  | succ k ih =>
    rw [List.replicate_succ, List.foldl_cons]
    exact ih

/-- For a value from 0 to below `10 ^ precision`, `%.<precision>d` prints exactly
`precision` digits, whose value is the value printed. -/
theorem fmtPrec_digits (precision : Nat) (v : Int) (hp : 0 < precision) (h0 : 0 ≤ v)
    (hlt : v < 10 ^ precision) :
    (fmtPrec precision v).length = precision ∧
    (∀ c ∈ fmtPrec precision v, c.isDigit = true) ∧
    fmtPrec precision v ≠ [] ∧
    (digitsValue (fmtPrec precision v) : Int) = v := by
  have hnat : ((v.natAbs : Nat) : Int) = v := Int.natAbs_of_nonneg h0
  have hlen : (Nat.toDigits 10 v.natAbs).length ≤ precision := by
    unfold Nat.toDigits
    apply Nat.toDigitsCore_length 10 (by norm_num) _ _ precision _ hp
    have : ((v.natAbs : Nat) : Int) < ((10 ^ precision : Nat) : Int) := by
      rw [hnat]
      push_cast
      exact hlt
    exact_mod_cast this
  have hform : fmtPrec precision v =
      List.replicate (precision - (Nat.toDigits 10 v.natAbs).length) '0'
        ++ Nat.toDigits 10 v.natAbs := by
    unfold fmtPrec
    rw [if_neg (by omega)]
    simp
  rw [hform]
  refine ⟨?_, ?_, ?_, ?_⟩
  · rw [List.length_append, List.length_replicate]
    omega
  · intro c hc
    rcases List.mem_append.1 hc with h | h
    · rw [(List.mem_replicate.1 h).2]
      decide
    · exact toDigits_isDigit _ c h
  · obtain ⟨k, cs, hk⟩ := toDigits_head v.natAbs
    rw [hk]
    simp
  · rw [digitsValue_zeros, digitsValue_toDigits, hnat]

theorem dateText_eq (d m y : Int) (hd : 0 ≤ d ∧ d < 100) (hm : 0 ≤ m ∧ m < 100)
    (hy : 0 ≤ y ∧ y < 10000) :
    dateText d m y = fmtPrec 2 d ++ '/' :: (fmtPrec 2 m ++ '/' :: fmtPrec 4 y) := by
  have h2 := (fmtPrec_digits 2 d (by norm_num) hd.1 (by norm_num; exact hd.2)).1
  have h3 := (fmtPrec_digits 2 m (by norm_num) hm.1 (by norm_num; exact hm.2)).1
  have h4 := (fmtPrec_digits 4 y (by norm_num) hy.1 (by norm_num; exact hy.2)).1
  unfold dateText
  rw [List.take_of_length_le]
  · simp
  · simp [h2, h3, h4]

/-- `sscanf_s` reads back the three numbers of a text written by `snprintf`. -/
theorem sscanfDate_dateText (d m y : Int) (hd : 0 ≤ d ∧ d < 100) (hm : 0 ≤ m ∧ m < 100)
    (hy : 0 ≤ y ∧ y < 10000) : sscanfDate (dateText d m y) = some (d, m, y) := by
  obtain ⟨_, hda, hdn, hdv⟩ := fmtPrec_digits 2 d (by norm_num) hd.1 (by norm_num; exact hd.2)
  obtain ⟨_, hma, hmn, hmv⟩ := fmtPrec_digits 2 m (by norm_num) hm.1 (by norm_num; exact hm.2)
  obtain ⟨_, hya, hyn, hyv⟩ := fmtPrec_digits 4 y (by norm_num) hy.1 (by norm_num; exact hy.2)
  have hslash : ∀ (l : List Char) (c : Char) (r : List Char),
      '/' :: l = c :: r → c.isDigit = false := by
    intro l c r h
    simp only [List.cons.injEq] at h
    rw [← h.1]
    decide
  have e1 := scanInt_digits (fmtPrec 2 d) ('/' :: (fmtPrec 2 m ++ '/' :: fmtPrec 4 y)) hdn hda
    (hslash _) (by rw [hdv]; unfold INT_MAX; omega)
  have e2 := scanInt_digits (fmtPrec 2 m) ('/' :: fmtPrec 4 y) hmn hma
    (hslash _) (by rw [hmv]; unfold INT_MAX; omega)
  have e3 := scanInt_digits (fmtPrec 4 y) [] hyn hya
    (by intro c r h; exact absurd h (by simp)) (by rw [hyv]; unfold INT_MAX; omega)
  rw [List.append_nil] at e3
  rw [dateText_eq d m y hd hm hy]
  unfold sscanfDate
  rw [e1]
  simp only
  rw [e2]
  simp only
  rw [e3, hdv, hmv, hyv]

/-- C13, as stated, fails for the valid date 1 January 2040 (time zone UTC): the
C library converts the date to the instant 2208988800 and back, but
`string_to_time` returns an `int`, here -2085978496; `time_to_string` renders
that as 25/11/1903, whose instant is -2086041600. Likewise 1 January 2110 gives
the `int` 123010304, rendered as 24/11/1973, whose instant is 122947200. -/
theorem date_round_trip_counterexample :
    dateText 1 1 2040 = "01/01/2040".toList ∧
    utc.mktime (dateFields 1 1 2040) = 2208988800 ∧
    utc.localtime (utc.mktime (dateFields 1 1 2040)) = dateFields 1 1 2040 ∧
    string_to_time utc "01/01/2040".toList = some (-2085978496) ∧
    time_to_string utc (-2085978496) = "25/11/1903".toList ∧
    string_to_time utc (time_to_string utc (-2085978496)) = some (-2086041600) ∧
    utc.localtime (utc.mktime (dateFields 1 1 2110)) = dateFields 1 1 2110 ∧
    string_to_time utc "01/01/2110".toList = some 123010304 ∧
    time_to_string utc 123010304 = "24/11/1973".toList ∧
    string_to_time utc (time_to_string utc 123010304) = some 122947200 := by
  decide

/-- C13 (amended): for every valid calendar date (day, month, year) whose
instant fits the `int` that `string_to_time` returns, with `x` the instant that
`string_to_time` yields for its "DD/MM/YYYY" text,
`string_to_time(time_to_string(x)) = x`, and `time_to_string(x)` is that text:
10 characters, two digits for the day, two for the month, four for the year,
zero-padded, separated by `/`. A date is valid for the C library in use when
`localtime` gives back the day, month and year that `mktime` was given. -/
theorem date_round_trip (tz : TimeZone) (d m y : Int)
    (hd : 1 ≤ d ∧ d ≤ 31) (hm : 1 ≤ m ∧ m ≤ 12) (hy : 0 ≤ y ∧ y ≤ 9999)
    (hvalid : (tz.localtime (tz.mktime (dateFields d m y))).tm_mday = d ∧
      (tz.localtime (tz.mktime (dateFields d m y))).tm_mon = m - 1 ∧
      (tz.localtime (tz.mktime (dateFields d m y))).tm_year = y - 1900)
    (hfit : INT_MIN ≤ tz.mktime (dateFields d m y) ∧ tz.mktime (dateFields d m y) ≤ INT_MAX) :
    string_to_time tz (dateText d m y) = some (tz.mktime (dateFields d m y)) ∧
    string_to_time tz (time_to_string tz (tz.mktime (dateFields d m y)))
      = some (tz.mktime (dateFields d m y)) ∧
    time_to_string tz (tz.mktime (dateFields d m y)) = dateText d m y ∧
    (dateText d m y).length = 10 ∧
    dateText d m y = fmtPrec 2 d ++ '/' :: (fmtPrec 2 m ++ '/' :: fmtPrec 4 y) ∧
    ((fmtPrec 2 d).length = 2 ∧ (∀ c ∈ fmtPrec 2 d, c.isDigit = true) ∧
      (digitsValue (fmtPrec 2 d) : Int) = d) ∧
    ((fmtPrec 2 m).length = 2 ∧ (∀ c ∈ fmtPrec 2 m, c.isDigit = true) ∧
      (digitsValue (fmtPrec 2 m) : Int) = m) ∧
    ((fmtPrec 4 y).length = 4 ∧ (∀ c ∈ fmtPrec 4 y, c.isDigit = true) ∧
      (digitsValue (fmtPrec 4 y) : Int) = y) := by
  have hd' : 0 ≤ d ∧ d < 100 := by omega
  have hm' : 0 ≤ m ∧ m < 100 := by omega
  have hy' : 0 ≤ y ∧ y < 10000 := by omega
  obtain ⟨hdl, hda, _, hdv⟩ := fmtPrec_digits 2 d (by norm_num) hd'.1 (by norm_num; exact hd'.2)
  obtain ⟨hml, hma, _, hmv⟩ := fmtPrec_digits 2 m (by norm_num) hm'.1 (by norm_num; exact hm'.2)
  obtain ⟨hyl, hya, _, hyv⟩ := fmtPrec_digits 4 y (by norm_num) hy'.1 (by norm_num; exact hy'.2)
  have htext := dateText_eq d m y hd' hm' hy'
  have hto : string_to_time tz (dateText d m y) = some (tz.mktime (dateFields d m y)) := by
    unfold string_to_time
    rw [sscanfDate_dateText d m y hd' hm' hy']
    simp only
    rw [wrapInt_of_range (m - 1) (by unfold INT_MIN; omega) (by unfold INT_MAX; omega),
      wrapInt_of_range (y - 1900) (by unfold INT_MIN; omega) (by unfold INT_MAX; omega)]
    show some (wrapInt (tz.mktime (dateFields d m y))) = _
    rw [wrapInt_of_range _ hfit.1 hfit.2]
  have hfrom : time_to_string tz (tz.mktime (dateFields d m y)) = dateText d m y := by
    unfold time_to_string
    simp only
    rw [hvalid.1, hvalid.2.1, hvalid.2.2,
      wrapInt_of_range (m - 1 + 1) (by unfold INT_MIN; omega) (by unfold INT_MAX; omega),
      wrapInt_of_range (y - 1900 + 1900) (by unfold INT_MIN; omega) (by unfold INT_MAX; omega)]
    have e1 : m - 1 + 1 = m := by omega
    have e2 : y - 1900 + 1900 = y := by omega
    rw [e1, e2]
  refine ⟨hto, ?_, hfrom, ?_, htext, ⟨hdl, hda, hdv⟩, ⟨hml, hma, hmv⟩, ⟨hyl, hya, hyv⟩⟩
  · rw [hfrom, hto]
  · rw [htext]
    simp [hdl, hml, hyl]

theorem date_round_trip_witness :
    string_to_time utc "15/06/2023".toList = some 1686787200 ∧
    string_to_time utc (time_to_string utc 1686787200) = some 1686787200 ∧
    time_to_string utc 1686787200 = "15/06/2023".toList :=
  have h := date_round_trip utc 15 6 2023 (by decide) (by decide) (by decide) (by decide)
    (by decide)
  ⟨h.1, h.2.1, h.2.2.1⟩
set_option maxHeartbeats 2000000 in
/-- In the time zone UTC every calendar date of the leap year 2024 is given back
by `localtime` after `mktime`, and its instant fits the `int` range. -/
theorem utc_dates_2024 :
    ∀ m : Nat, m < 12 → ∀ d : Nat, d < 31 →
      ((d : Int) + 1 ≤ daysInMonth 2024 (m + 1)) →
      utc.localtime (utc.mktime (dateFields (d + 1) (m + 1) 2024))
        = dateFields (d + 1) (m + 1) 2024 ∧
      INT_MIN ≤ utc.mktime (dateFields (d + 1) (m + 1) 2024) ∧
      utc.mktime (dateFields (d + 1) (m + 1) 2024) ≤ INT_MAX := by
  decide

end Library
